import Mathlib

/-!
# Verification of the `@btst` schema-driven storage core and CLI filter

This file gives a shallow embedding of the repository's data model and
operations and proves the specified properties about them.

The in-memory storage engine (schema model, adapter contract, relation
resolver, memory store engine) is not shipped in this snapshot of the
repository: only its test-suites, build configuration and callers are.
Those components are therefore modelled from the specification, as marked
on each definition.  The Kysely auth-table text filter
(`packages/btst/cli/src/utils/filter-auth-tables.ts`) is present in source
and is embedded directly from the code.
-/

namespace Btst

/-- Modelled from the spec: runtime values of the four field types of §3
(string, number, boolean, date), plus `null` (used by the `setNull`
referential action and nullable relation attributes).  Dates and numbers
are modelled as integers; the spec's claims do not exercise fractional
arithmetic. -/
inductive Value where
  | str (s : String)
  | num (n : Int)
  | bool (b : Bool)
  | date (d : Int)
  | null
deriving DecidableEq, Repr

/-- Modelled from the spec: the closed union of field types (§3). -/
inductive FieldType where
  | string
  | number
  | boolean
  | date
deriving DecidableEq, Repr

/-- Modelled from the spec: the `onDelete` referential policies (§3). -/
inductive OnDelete where
  | cascade
  | setNull
  | restrict
  | noAction
deriving DecidableEq, Repr

/-- Modelled from the spec: a `references` entry of a field definition:
target model name, target field name, and the delete policy (§3). -/
structure Reference where
  model : String
  field : String
  onDelete : OnDelete
deriving DecidableEq, Repr

/-- Modelled from the spec: a `FieldDefinition` (§3): type, `required`,
`unique`, an optional default value and an optional `references` entry.
A zero-argument default generator is abstracted by the value it produces
at the create under consideration. -/
structure FieldDefinition where
  type : FieldType
  required : Bool := false
  unique : Bool := false
  defaultValue : Option Value := none
  references : Option Reference := none
deriving DecidableEq, Repr

/-- Modelled from the spec: a `ModelDefinition` (§3): an ordered mapping
of field name to field definition. -/
structure ModelDefinition where
  fields : List (String × FieldDefinition)
deriving DecidableEq, Repr

/-- Modelled from the spec: a `SchemaDefinition` (§3): a mapping of model
key to model definition. -/
abbrev Schema := List (String × ModelDefinition)

/-- Modelled from the spec: a record is a flat mapping of field name to
value; the identifier lives in the mapping under the key `id` (§3). -/
abbrev Rec := List (String × Value)

/-- Modelled from the spec: the store holds one insertion-ordered table
per model (§3, §5). -/
abbrev Store := List (String × List Rec)

/-- First binding of a field in a record. -/
def getField (r : Rec) (f : String) : Option Value :=
  match r with
  | [] => none
  | (g, v) :: rest => if g = f then some v else getField rest f

/-- Replace the first binding of `f` (or append one). -/
def setField (r : Rec) (f : String) (v : Value) : Rec :=
  match r with
  | [] => [(f, v)]
  | (g, w) :: rest => if g = f then (f, v) :: rest else (g, w) :: setField rest f v

/-- Whether a record carries a binding for `f`. -/
def hasField (r : Rec) (f : String) : Bool :=
  (getField r f).isSome

/-- The identifier of a record. -/
def idOf (r : Rec) : Option Value :=
  getField r "id"

/-- The table of a model (empty when the model has no table yet). -/
def getTable (st : Store) (m : String) : List Rec :=
  match st with
  | [] => []
  | (k, t) :: rest => if k = m then t else getTable rest m

/-- Drop all bindings of model `m` from the store. -/
def eraseTable (st : Store) (m : String) : Store :=
  st.filter (fun p => !(p.1 = m : Bool))

/-- Replace the table of model `m`. -/
def setTable (st : Store) (m : String) (t : List Rec) : Store :=
  (m, t) :: eraseTable st m

/-- Look a model definition up in the schema. -/
def lookupModel (s : Schema) (m : String) : Option ModelDefinition :=
  match s with
  | [] => none
  | (k, md) :: rest => if k = m then some md else lookupModel rest m

/-- Modelled from the spec: the error taxonomy of §7.  `Internal` is the
result of running out of recursion fuel; the development proves it is
never returned by `deleteById`. -/
inductive DbError where
  | ValidationError
  | UniqueConstraintViolation
  | ReferentialIntegrityError
  | NotFound
  | Internal
deriving DecidableEq, Repr

/-! ## Where-clause evaluation (§4.4) -/

/-- Modelled from the spec: connectors between consecutive predicates. -/
inductive Connector where
  | andC
  | orC
deriving DecidableEq, Repr

/-- Modelled from the spec: the where-clause operators of §4.4. -/
inductive WhereOp where
  | eq (v : Value)
  | ne (v : Value)
  | lt (v : Value)
  | lte (v : Value)
  | gt (v : Value)
  | gte (v : Value)
  | inList (vs : List Value)
  | notInList (vs : List Value)
  | containsStr (sub : String)
  | startsWith (p : String)
  | endsWith (sfx : String)
deriving DecidableEq, Repr

/-- Modelled from the spec: one predicate of a where-clause. -/
structure Pred where
  field : String
  op : WhereOp
  connector : Connector := .andC
deriving DecidableEq, Repr

/-- Ordering of runtime values, by the value's own type tag (a well-typed
record's runtime tag coincides with the field's declared type). -/
def valLt (a b : Value) : Bool :=
  match a, b with
  | .str x, .str y => decide (x < y)
  | .num x, .num y => decide (x < y)
  | .date x, .date y => decide (x < y)
  | .bool x, .bool y => !x && y
  | _, _ => false

/-- Substring test over character lists. -/
def charsInfix (needle hay : List Char) : Bool :=
  match hay with
  | [] => needle.isEmpty
  | _ :: rest => needle.isPrefixOf hay || charsInfix needle rest

/-- Evaluate one operator against a present field value. -/
def evalOp (v : Value) : WhereOp → Bool
  | .eq w => v == w
  | .ne w => !(v == w)
  | .lt w => valLt v w
  | .lte w => valLt v w || v == w
  | .gt w => valLt w v
  | .gte w => valLt w v || v == w
  | .inList vs => vs.contains v
  | .notInList vs => !(vs.contains v)
  | .containsStr sub =>
    match v with
    | .str x => charsInfix sub.data x.data
    | _ => false
  | .startsWith p =>
    match v with
    | .str x => p.data.isPrefixOf x.data
    | _ => false
  | .endsWith sfx =>
    match v with
    | .str x => sfx.data.isSuffixOf x.data
    | _ => false

/-- Evaluate a predicate against a record; a missing field never matches. -/
def evalPred (r : Rec) (p : Pred) : Bool :=
  match getField r p.field with
  | some v => evalOp v p.op
  | none => false

/-- Modelled from the spec: fold the predicates left-to-right, AND by
default, OR when the predicate says so; the empty clause matches all. -/
def matchesWhere (r : Rec) (w : List Pred) : Bool :=
  match w with
  | [] => true
  | p :: ps =>
    ps.foldl
      (fun acc q =>
        match q.connector with
        | .andC => acc && evalPred r q
        | .orC => acc || evalPred r q)
      (evalPred r p)

/-! ## Sorting (§4.4): single field and direction, stable. -/

/-- Modelled from the spec: a sort request. -/
structure SortBy where
  field : String
  desc : Bool
deriving DecidableEq, Repr

/-- Strict comparison of two records on a sort field. -/
def keyLt (f : String) (a b : Rec) : Bool :=
  match getField a f, getField b f with
  | some x, some y => valLt x y
  | none, some _ => true
  | _, _ => false

/-- Comparison used by a sort request (flipped when descending). -/
def recLt (sb : SortBy) (a b : Rec) : Bool :=
  if sb.desc then keyLt sb.field b a else keyLt sb.field a b

/-- Stable insertion: `x` goes before the first element not strictly
below it, so ties keep the incoming order. -/
def insertRec (lt : Rec → Rec → Bool) (x : Rec) : List Rec → List Rec
  | [] => [x]
  | y :: ys => if lt y x then y :: insertRec lt x ys else x :: y :: ys

/-- Stable insertion sort. -/
def isortRecs (lt : Rec → Rec → Bool) : List Rec → List Rec
  | [] => []
  | x :: xs => insertRec lt x (isortRecs lt xs)

/-- Apply an optional sort request. -/
def applySort (sb : Option SortBy) (l : List Rec) : List Rec :=
  match sb with
  | none => l
  | some sb' => isortRecs (fun a b => recLt sb' a b) l

/-! ## Reads (§4.3/§4.4) -/

/-- Modelled from the spec: `findMany` without joins — filter by the
where-clause, sort, then apply offset and limit. -/
def runFindMany (st : Store) (m : String) (w : List Pred)
    (sb : Option SortBy) (lim off : Option Nat) : List Rec :=
  let matched := (getTable st m).filter (fun r => matchesWhere r w)
  let sorted := applySort sb matched
  let shifted := match off with | some o => sorted.drop o | none => sorted
  match lim with
  | some k => shifted.take k
  | none => shifted

/-- Modelled from the spec: `findOne` without joins — the first match in
table order, or `none` (not an error). -/
def findOneBase (st : Store) (m : String) (w : List Pred) : Option Rec :=
  ((getTable st m).filter (fun r => matchesWhere r w)).head?

/-- Modelled from the spec: `count`. -/
def countOp (st : Store) (m : String) (w : List Pred) : Nat :=
  ((getTable st m).filter (fun r => matchesWhere r w)).length

/-! ## Relation resolution and joins (§3, §4.2, §4.4) -/

/-- Modelled from the spec: resolve a requested relation name on a base
model — the field of the target model (named by the relation) that
references the base model.  The relationship is one-to-one when that
field is `unique`, one-to-many otherwise. -/
def resolveRelation (s : Schema) (base rel : String) : Option (String × FieldDefinition) :=
  match lookupModel s rel with
  | none => none
  | some md =>
    md.fields.find? (fun q =>
      match q.2.references with
      | some ref => ref.model == base
      | none => false)

/-- A relation attribute attached to a base record by a join: a nullable
single record for one-to-one, a sequence for one-to-many. -/
inductive Attached where
  | one (r : Option Rec)
  | many (rs : List Rec)
deriving DecidableEq, Repr

/-- A join request: relation name with an optional limit (`true` in the
source requests the relation without limit). -/
abbrev JoinReq := List (String × Option Nat)

/-- Modelled from the spec: the in-process join algorithm of §4.4 for one
requested relation on one base record. -/
def attachOne (s : Schema) (st : Store) (base : String) (r : Rec)
    (rel : String) (lim : Option Nat) : Option (String × Attached) :=
  match resolveRelation s base rel with
  | none => none
  | some fq =>
    match idOf r with
    | none => some (rel, if fq.2.unique then .one none else .many [])
    | some rid =>
      if fq.2.unique then
        some (rel, .one ((getTable st rel).find? (fun c => getField c fq.1 == some rid)))
      else
        let kids := (getTable st rel).filter (fun c => getField c fq.1 == some rid)
        some (rel, .many (match lim with | some k => kids.take k | none => kids))

/-- Modelled from the spec: the fallback join path of §6 — one adapter
query per requested relation instead of the in-process algorithm. -/
def attachOneFallback (s : Schema) (st : Store) (base : String) (r : Rec)
    (rel : String) (lim : Option Nat) : Option (String × Attached) :=
  match resolveRelation s base rel with
  | none => none
  | some fq =>
    match idOf r with
    | none => some (rel, if fq.2.unique then .one none else .many [])
    | some rid =>
      if fq.2.unique then
        some (rel, .one (findOneBase st rel [⟨fq.1, .eq rid, .andC⟩]))
      else
        some (rel, .many (runFindMany st rel [⟨fq.1, .eq rid, .andC⟩] none lim none))

/-- Attach all requested relations (in-process join algorithm). -/
def attachAll (s : Schema) (st : Store) (base : String) (join : JoinReq) (r : Rec) :
    Rec × List (String × Attached) :=
  (r, join.filterMap (fun q => attachOne s st base r q.1 q.2))

/-- Attach all requested relations (fallback, one query per relation). -/
def attachAllFallback (s : Schema) (st : Store) (base : String) (join : JoinReq) (r : Rec) :
    Rec × List (String × Attached) :=
  (r, join.filterMap (fun q => attachOneFallback s st base r q.1 q.2))

/-- Modelled from the spec: `findMany` with joins; `useJoins` selects the
in-process join algorithm or the per-relation fallback (§6). -/
def findManyJoin (useJoins : Bool) (s : Schema) (st : Store) (m : String) (w : List Pred)
    (sb : Option SortBy) (lim off : Option Nat) (join : JoinReq) :
    List (Rec × List (String × Attached)) :=
  (runFindMany st m w sb lim off).map
    (fun r => if useJoins then attachAll s st m join r else attachAllFallback s st m join r)

/-- Modelled from the spec: `findOne` with joins. -/
def findOneJoin (useJoins : Bool) (s : Schema) (st : Store) (m : String) (w : List Pred)
    (join : JoinReq) : Option (Rec × List (String × Attached)) :=
  (findOneBase st m w).map
    (fun r => if useJoins then attachAll s st m join r else attachAllFallback s st m join r)

/-! ## Create (§4.3) -/

/-- Modelled from the spec: insert defaults for fields absent from the
supplied data (first binding wins, so data overrides defaults). -/
def applyDefaults (md : ModelDefinition) (data : Rec) : Rec :=
  data ++ md.fields.filterMap
    (fun q => if hasField data q.1 then none else q.2.defaultValue.map (fun v => (q.1, v)))

/-- Every `required` field is present after defaults. -/
def requiredOk (md : ModelDefinition) (d : Rec) : Bool :=
  md.fields.all (fun q => !q.2.required || hasField d q.1)

/-- A value conforms to a declared field type (`null` is allowed). -/
def valHasType (t : FieldType) (v : Value) : Bool :=
  match t, v with
  | _, .null => true
  | .string, .str _ => true
  | .number, .num _ => true
  | .boolean, .bool _ => true
  | .date, .date _ => true
  | _, _ => false

/-- Every supplied field value conforms to its declared type. -/
def typesOk (md : ModelDefinition) (d : Rec) : Bool :=
  md.fields.all (fun q =>
    match getField d q.1 with
    | some v => valHasType q.2.type v
    | none => true)

/-- No `unique` field of the candidate collides with an existing row of
the model's own table. -/
def uniqueOk (md : ModelDefinition) (table : List Rec) (d : Rec) : Bool :=
  md.fields.all (fun q =>
    !q.2.unique ||
      match getField d q.1 with
      | some v => table.all (fun r => !(getField r q.1 == some v))
      | none => true)

/-- The generated identifier for create number `n`; always non-empty. -/
def genId (n : Nat) : String :=
  "r" ++ Nat.repr n

/-- Modelled from the spec: `create` against one model's table — apply
defaults, validate required fields and types, enforce `unique` against
existing rows, assign a generated identifier if none supplied, append. -/
def createCore (md : ModelDefinition) (table : List Rec) (data : Rec) (n : Nat) :
    Except DbError (Rec × List Rec) :=
  let d := applyDefaults md data
  if requiredOk md d = false then .error .ValidationError
  else if typesOk md d = false then .error .ValidationError
  else if uniqueOk md table d = false then .error .UniqueConstraintViolation
  else
    let newRec : Rec := if hasField d "id" then d else ("id", Value.str (genId n)) :: d
    .ok (newRec, table ++ [newRec])

/-- Modelled from the spec: `create(model, data)`; reads and writes only
the addressed model's table. -/
def create (s : Schema) (store : Store) (m : String) (data : Rec) (n : Nat) :
    Except DbError (Rec × Store) :=
  match lookupModel s m with
  | none => .error .ValidationError
  | some md =>
    match createCore md (getTable store m) data n with
    | .error e => .error e
    | .ok (r, t) => .ok (r, setTable store m t)

/-- The error produced by a create, if any. -/
def createErr (s : Schema) (store : Store) (m : String) (data : Rec) (n : Nat) :
    Option DbError :=
  match create s store m data n with
  | .error e => some e
  | .ok _ => none

/-- The record returned by a create, if it succeeded. -/
def createRec (s : Schema) (store : Store) (m : String) (data : Rec) (n : Nat) :
    Option Rec :=
  match create s store m data n with
  | .error _ => none
  | .ok (r, _) => some r

/-- The store after a create (unchanged when the create failed). -/
def createStore (s : Schema) (store : Store) (m : String) (data : Rec) (n : Nat) :
    Store :=
  match create s store m data n with
  | .error _ => store
  | .ok (_, st) => st

/-! ## Update (§4.3) -/

/-- Apply the update data field by field. -/
def applyUpdates (r : Rec) (data : Rec) : Rec :=
  data.foldl (fun acc q => setField acc q.1 q.2) r

/-- Replace the first record satisfying `p`. -/
def replaceFirst (p : Rec → Bool) (r' : Rec) : List Rec → List Rec
  | [] => []
  | x :: xs => if p x then r' :: xs else x :: replaceFirst p r' xs

/-- Modelled from the spec: `update(model, where, data)` — locate the
first matching record, apply the field updates, re-validate types and
`unique` excluding the record being updated; `NotFound` on zero
matches.  Reads and writes only the addressed model's table. -/
def update (s : Schema) (store : Store) (m : String) (w : List Pred) (data : Rec) :
    Except DbError (Rec × Store) :=
  match lookupModel s m with
  | none => .error .ValidationError
  | some md =>
    let t := getTable store m
    match t.find? (fun r => matchesWhere r w) with
    | none => .error .NotFound
    | some r =>
      let r' := applyUpdates r data
      if typesOk md r' = false then .error .ValidationError
      else if uniqueOk md (t.eraseP (fun x => matchesWhere x w)) r' = false then
        .error .UniqueConstraintViolation
      else .ok (r', setTable store m (replaceFirst (fun x => matchesWhere x w) r' t))

/-- The error produced by an update, if any. -/
def updateErr (s : Schema) (store : Store) (m : String) (w : List Pred) (data : Rec) :
    Option DbError :=
  match update s store m w data with
  | .error e => some e
  | .ok _ => none

/-- The record returned by an update, if it succeeded. -/
def updateRec (s : Schema) (store : Store) (m : String) (w : List Pred) (data : Rec) :
    Option Rec :=
  match update s store m w data with
  | .error _ => none
  | .ok (r, _) => some r

/-! ## Delete with referential actions (§4.4) -/

/-- A referential edge into a model: the referencing (child) model, the
referencing field on it, and the field's delete policy. -/
structure Edge where
  child : String
  field : String
  policy : OnDelete
deriving DecidableEq, Repr

/-- Modelled from the spec (§4.2): all fields of other models that
reference model `m` (the inward relationships of `m`). -/
def referencingEdges (s : Schema) (m : String) : List Edge :=
  s.flatMap (fun p =>
    p.2.fields.filterMap (fun q =>
      match q.2.references with
      | some ref => if ref.model = m then some ⟨p.1, q.1, ref.onDelete⟩ else none
      | none => none))

/-- Whether the model's table holds a record with the given id. -/
def recordExists (st : Store) (m : String) (rid : Value) : Bool :=
  (getTable st m).any (fun r => idOf r == some rid)

/-- Modelled from the spec: a `restrict` policy blocks the delete when a
matching child exists; all restrict checks run before any mutation, so a
blocked delete leaves the store unchanged (§4.4). -/
def restrictViolated (s : Schema) (st : Store) (m : String) (rid : Value) : Bool :=
  (referencingEdges s m).any (fun e =>
    e.policy == .restrict && (getTable st e.child).any (fun r => getField r e.field == some rid))

/-- Set the referencing field to `null` on all children matching the
deleted id (`setNull` policy). -/
def setNullTable (st : Store) (m f : String) (rid : Value) : Store :=
  setTable st m
    ((getTable st m).map (fun r => if getField r f == some rid then setField r f .null else r))

/-- Remove every record with the given id from the model's table. -/
def removeRecord (st : Store) (m : String) (rid : Value) : Store :=
  setTable st m ((getTable st m).filter (fun r => !(idOf r == some rid)))

/-- One step of recursive child deletion, abstracted over the deletion
procedure `next` for one record (the cascade recursion at one level less
fuel and with the current record marked visited). -/
def delChildrenF (next : String → Value → Store → Except DbError Store) (child : String) :
    List Value → Store → Except DbError Store
  | [], st => .ok st
  | c :: cs, st =>
    match next child c st with
    | .error err => .error err
    | .ok st1 => delChildrenF next child cs st1

/-- Process the referential edges of the record being deleted: cascade
recursively deletes matching children via `next`, `setNull` clears their
foreign key; `restrict` was already checked, `noAction` leaves them. -/
def delEdgesF (next : String → Value → Store → Except DbError Store) (rid : Value) :
    List Edge → Store → Except DbError Store
  | [], st => .ok st
  | e :: es, st =>
    match e.policy with
    | .cascade =>
      let kids := ((getTable st e.child).filter
        (fun r => getField r e.field == some rid)).filterMap idOf
      match delChildrenF next e.child kids st with
      | .error err => .error err
      | .ok st1 => delEdgesF next rid es st1
    | .setNull => delEdgesF next rid es (setNullTable st e.child e.field rid)
    | .restrict => delEdgesF next rid es st
    | .noAction => delEdgesF next rid es st

/-- Modelled from the spec: delete one record by identity, propagating
referential actions (§4.4).  Visited record identities are tracked to
terminate on cyclic schemas; the fuel argument makes the recursion
structural, and the development proves the initial fuel of `deleteById`
is never exhausted. -/
def delRec (s : Schema) : Nat → List (String × Value) → String → Value → Store →
    Except DbError Store
  | 0 => fun _ _ _ _ => .error .Internal
  | Nat.succ n => fun visited m rid st =>
    if (m, rid) ∈ visited then .ok st
    else if recordExists st m rid = false then .ok st
    else if restrictViolated s st m rid then .error .ReferentialIntegrityError
    else
      match delEdgesF (delRec s n ((m, rid) :: visited)) rid (referencingEdges s m) st with
      | .error e => .error e
      | .ok st1 => .ok (removeRecord st1 m rid)

/-- Record identities present in the store (model key paired with id). -/
def identities (st : Store) : List (String × Value) :=
  st.flatMap (fun p => p.2.filterMap (fun r => (idOf r).map (fun v => (p.1, v))))

/-- Total number of records in the store. -/
def totalRecords (st : Store) : Nat :=
  (st.map (fun p => p.2.length)).sum

/-- Fuel that the development proves sufficient for any cascade. -/
def fuelFor (st : Store) : Nat :=
  totalRecords st + 1

/-- Modelled from the spec: `delete` of the record with the given id;
on failure the store is returned unchanged (the whole delete is
all-or-nothing, §4.4/§7). -/
def deleteById (s : Schema) (store : Store) (m : String) (rid : Value) :
    Option DbError × Store :=
  match delRec s (fuelFor store) [] m rid store with
  | .ok st => (none, st)
  | .error e => (some e, store)

/-- Modelled from the spec: `delete(model, where)` — locate the first
matching record and delete it by identity; zero matches is a no-op. -/
def deleteWhere (s : Schema) (store : Store) (m : String) (w : List Pred) :
    Option DbError × Store :=
  match findOneBase store m w with
  | none => (none, store)
  | some r =>
    match idOf r with
    | none => (none, store)
    | some rid => deleteById s store m rid

end Btst

namespace Btst

/-! ## Concrete fixtures (the author/profile/book schema of the
test-suite), used by the witness theorems. -/

/-- A plain optional string field. -/
def strF : FieldDefinition := { type := .string }

/-- A required string field. -/
def reqStrF : FieldDefinition := { type := .string, required := true }

/-- A required unique string field. -/
def uniqStrF : FieldDefinition := { type := .string, required := true, unique := true }

/-- A string field referencing `m.id` with the given delete policy. -/
def refF (m : String) (p : OnDelete) : FieldDefinition :=
  { type := .string, references := some ⟨m, "id", p⟩ }

/-- A required unique string field referencing `m.id` (one-to-one). -/
def refUniqF (m : String) (p : OnDelete) : FieldDefinition :=
  { type := .string, required := true, unique := true, references := some ⟨m, "id", p⟩ }

/-- The `author` model of the test-suite. -/
def authorMD : ModelDefinition := ⟨[("name", reqStrF), ("email", uniqStrF)]⟩

/-- The `profile` model: unique `authorId` referencing author (cascade). -/
def profileMD : ModelDefinition := ⟨[("bio", strF), ("authorId", refUniqF "author" .cascade)]⟩

/-- The `book` model: `authorId` referencing author (cascade). -/
def bookMD : ModelDefinition :=
  ⟨[("title", reqStrF), ("authorId", refF "author" .cascade),
    ("publishedAt", { type := .date, defaultValue := some (.date 0) })]⟩

/-- The joins test-suite schema. -/
def testSchema : Schema := [("author", authorMD), ("profile", profileMD), ("book", bookMD)]

/-- The same schema with the profile reference declared `restrict`. -/
def testSchemaR : Schema :=
  [("author", authorMD), ("profile", ⟨[("bio", strF), ("authorId", refUniqF "author" .restrict)]⟩),
   ("book", bookMD)]

/-- An empty store for the test schema. -/
def emptyStore : Store := [("author", []), ("profile", []), ("book", [])]

/-- A sample author record. -/
def sampleAuthor : Rec := [("id", .str "a1"), ("name", .str "Jane"), ("email", .str "j@x")]

/-- A sample profile of `a1`. -/
def sampleProfile : Rec := [("id", .str "p1"), ("bio", .str "bb"), ("authorId", .str "a1")]

/-- Sample books of `a1`. -/
def sampleBook1 : Rec := [("id", .str "b1"), ("title", .str "B1"), ("authorId", .str "a1")]

/-- Second sample book of `a1`. -/
def sampleBook2 : Rec := [("id", .str "b2"), ("title", .str "B2"), ("authorId", .str "a1")]

/-- A populated store: one author, her profile and two books. -/
def sampleStore : Store :=
  [("author", [sampleAuthor]), ("profile", [sampleProfile]),
   ("book", [sampleBook1, sampleBook2])]

/-- A second model that also declares a unique `email` field. -/
def visitorMD : ModelDefinition := ⟨[("email", uniqStrF)]⟩

/-- A schema with two models sharing the unique field name `email`. -/
def emailSchema : Schema := [("author", authorMD), ("visitor", visitorMD)]

/-- Author table populated, visitor table empty. -/
def emailStore : Store := [("author", [sampleAuthor]), ("visitor", [])]

/-- The `todo` model of the cross-table isolation test. -/
def todoMD : ModelDefinition := ⟨[("title", reqStrF)]⟩

/-- The `message` model of the cross-table isolation test. -/
def messageMD : ModelDefinition := ⟨[("content", reqStrF)]⟩

/-- Two unrelated models. -/
def tmSchema : Schema := [("todo", todoMD), ("message", messageMD)]

/-- Both tables empty. -/
def tmStore : Store := [("todo", []), ("message", [])]

end Btst

namespace FilterAuth

/-!
## The Kysely auth-table filter

Embedded from `packages/btst/cli/src/utils/filter-auth-tables.ts`
(`DEFAULT_AUTH_TABLES` and `filterKyselyAuthTables`).  The regular
expressions of the source are reproduced as deterministic character-list
matchers; where the JavaScript engine backtracks (the optional quote and
the greedy word run of the index pattern), the matcher tries the same
alternatives in the same order. -/

/-- `DEFAULT_AUTH_TABLES` from the source, verbatim (including the
mixed-case `rateLimit` entry alongside its lowercase variant). -/
def DEFAULT_AUTH_TABLES : List String :=
  ["user", "session", "account", "verification", "rateLimit", "ratelimit"]

/-- ASCII-wise lowercase of a string (`String.toLowerCase` of the
source applied to `\w`-captured names, which are ASCII). -/
def lowerStr (s : String) : String :=
  String.mk (s.data.map Char.toLower)

/-- Membership test `DEFAULT_AUTH_TABLES.includes(t.toLowerCase())`. -/
def isAuthTable (t : String) : Bool :=
  DEFAULT_AUTH_TABLES.contains (lowerStr t)

/-- A word character of the regex class `\w`. -/
def isWordChar (c : Char) : Bool :=
  c.isAlpha || c.isDigit || c = '_'

/-- A whitespace character of the regex class `\s`: tab, line feed,
vertical tab, form feed, carriage return, space, no-break space, Ogham
space mark, the en/em quad range U+2000..U+200A, line separator,
paragraph separator, narrow no-break space, medium mathematical space,
ideographic space, and the byte-order mark.  `String.prototype.trim`
strips exactly the same set (WhiteSpace plus LineTerminator), so this
class also drives `trimChars`. -/
def isWsChar (c : Char) : Bool :=
  c = ' ' || c = '\t' || c = '\n' || c = '\r' ||
  c = Char.ofNat 0x0B || c = Char.ofNat 0x0C ||
  c = Char.ofNat 0xA0 || c = Char.ofNat 0x1680 ||
  (0x2000 ≤ c.toNat && c.toNat ≤ 0x200A) ||
  c = Char.ofNat 0x2028 || c = Char.ofNat 0x2029 ||
  c = Char.ofNat 0x202F || c = Char.ofNat 0x205F ||
  c = Char.ofNat 0x3000 || c = Char.ofNat 0xFEFF

/-- A quote character of the source's character class: double quote,
backtick, or single quote. -/
def isQuoteChar (c : Char) : Bool :=
  c = '"' || c = Char.ofNat 96 || c = Char.ofNat 39

/-- Case-insensitive literal match (pattern given in lowercase),
returning the rest of the input. -/
def litCI (pat cs : List Char) : Option (List Char) :=
  match pat, cs with
  | [], rest => some rest
  | _ :: _, [] => none
  | p :: ps, c :: rest => if c.toLower = p then litCI ps rest else none

/-- `\s+`: at least one whitespace character, consumed greedily (every
continuation in these patterns starts with a non-whitespace character,
so maximal munch is exact). -/
def wsPlus (cs : List Char) : Option (List Char) :=
  match cs with
  | c :: rest => if isWsChar c then some (rest.dropWhile isWsChar) else none
  | [] => none

/-- `(\w+)`: capture a non-empty maximal word run. -/
def wordCapture (cs : List Char) : Option String :=
  let run := cs.takeWhile isWordChar
  if run.isEmpty then none else some (String.mk run)

/-- `["'!]?(\w+)` (with `!` standing for the backtick): an optional quote
then the captured word.  When the quote is present but no word follows,
the regex backtracks to the unconsumed-quote branch, which also fails
because a quote is not a word character — so a single deterministic pass
is faithful. -/
def quoteWordCapture (cs : List Char) : Option String :=
  match cs with
  | c :: rest => if isQuoteChar c then wordCapture rest else wordCapture cs
  | [] => none

/-- The first-match scan of `line.match(...)`: try every start position
left to right. -/
def scanFirst (matchAt : List Char → Option String) : List Char → Option String
  | [] => none
  | c :: cs =>
    match matchAt (c :: cs) with
    | some t => some t
    | none => scanFirst matchAt cs

/-- Matcher for `/CREATE\s+TABLE\s+(?:["'!]?(\w+)["'!]?)/i` anchored at
the current position. -/
def matchCreateTableAt (cs : List Char) : Option String :=
  (litCI "create".data cs).bind fun r1 =>
  (wsPlus r1).bind fun r2 =>
  (litCI "table".data r2).bind fun r3 =>
  (wsPlus r3).bind fun r4 =>
  quoteWordCapture r4

/-- `createMatch`: first `CREATE TABLE` table name of the line. -/
def firstCreateTable (cs : List Char) : Option String :=
  scanFirst matchCreateTableAt cs

/-- Matcher for `/ALTER\s+TABLE\s+["'!]?(\w+)["'!]?/i`. -/
def matchAlterTableAt (cs : List Char) : Option String :=
  (litCI "alter".data cs).bind fun r1 =>
  (wsPlus r1).bind fun r2 =>
  (litCI "table".data r2).bind fun r3 =>
  (wsPlus r3).bind fun r4 =>
  quoteWordCapture r4

/-- `alterMatch`: first `ALTER TABLE` table name of the line. -/
def firstAlterTable (cs : List Char) : Option String :=
  scanFirst matchAlterTableAt cs

/-- Matcher for `/REFERENCES\s+["'!]?(\w+)["'!]?/i`. -/
def matchRefAt (cs : List Char) : Option String :=
  (litCI "references".data cs).bind fun r1 =>
  (wsPlus r1).bind fun r2 =>
  quoteWordCapture r2

/-- `refMatch`: first `REFERENCES` table name of the line. -/
def firstRefTable (cs : List Char) : Option String :=
  scanFirst matchRefAt cs

/-- Tail of the index pattern: `\s+ON\s+["'!]?(\w+)["'!]?`. -/
def idxTail (cs : List Char) : Option String :=
  (wsPlus cs).bind fun r1 =>
  (litCI "on".data r1).bind fun r2 =>
  (wsPlus r2).bind fun r3 =>
  quoteWordCapture r3

/-- After the index-name word run: optional closing quote (greedy, with
the backtrack alternative) then the tail. -/
def idxAfterName (cs : List Char) : Option String :=
  match cs with
  | c :: rest =>
    if isQuoteChar c then
      match idxTail rest with
      | some t => some t
      | none => idxTail cs
    else idxTail cs
  | [] => none

/-- Greedy `\w*` with backtracking: try consuming `k` word characters,
longest first. -/
def idxTryLens (cs : List Char) : Nat → Option String
  | 0 => idxAfterName cs
  | Nat.succ k =>
    match idxAfterName (cs.drop (Nat.succ k)) with
    | some t => some t
    | none => idxTryLens cs k

/-- The `["'!]?\w*` part after `CREATE\s+INDEX\s+`: optional opening
quote (greedy, with the backtrack alternative), then the word run. -/
def idxAfterIndexWs (cs : List Char) : Option String :=
  match cs with
  | c :: rest =>
    if isQuoteChar c then
      match idxTryLens rest (rest.takeWhile isWordChar).length with
      | some t => some t
      | none => idxTryLens cs (cs.takeWhile isWordChar).length
    else idxTryLens cs (cs.takeWhile isWordChar).length
  | [] => none

/-- Matcher for
`/CREATE\s+INDEX\s+["'!]?\w*["'!]?\s+ON\s+["'!]?(\w+)["'!]?/i`. -/
def matchIndexAt (cs : List Char) : Option String :=
  (litCI "create".data cs).bind fun r1 =>
  (wsPlus r1).bind fun r2 =>
  (litCI "index".data r2).bind fun r3 =>
  (wsPlus r3).bind fun r4 =>
  idxAfterIndexWs r4

/-- `indexMatch`: first `CREATE INDEX ... ON` table name of the line. -/
def firstIndexTable (cs : List Char) : Option String :=
  scanFirst matchIndexAt cs

/-- The line's `createMatch` names an auth table. -/
def createsAuthLine (l : String) : Bool :=
  match firstCreateTable l.data with
  | some t => isAuthTable t
  | none => false

/-- The line's `indexMatch` names an auth table. -/
def indexAuthLine (l : String) : Bool :=
  match firstIndexTable l.data with
  | some t => isAuthTable t
  | none => false

/-- The line's `alterMatch` names an auth table. -/
def alterAuthLine (l : String) : Bool :=
  match firstAlterTable l.data with
  | some t => isAuthTable t
  | none => false

/-- The line's `refMatch` names an auth table. -/
def refAuthLine (l : String) : Bool :=
  match firstRefTable l.data with
  | some t => isAuthTable t
  | none => false

/-- `line.includes(";")`. -/
def lineHasSemi (l : String) : Bool :=
  l.data.contains ';'

/-- The index, alter and references checks a surviving line must pass. -/
def keepChecks (l : String) : Bool :=
  !indexAuthLine l && !alterAuthLine l && !refAuthLine l

/-- The loop body of `filterKyselyAuthTables`, on the split lines, with
the `inAuthTable` flag.  The `createMatch` check runs first even while
skipping; a non-auth match clears the flag and the line falls through to
the index/alter/references checks; while skipping, a line with no
`createMatch` is dropped and a semicolon ends the statement. -/
def filterKyselyLines : Bool → List String → List String
  | _, [] => []
  | inAuth, l :: rest =>
    match firstCreateTable l.data with
    | some t =>
      if isAuthTable t then filterKyselyLines true rest
      else if keepChecks l then l :: filterKyselyLines false rest
      else filterKyselyLines false rest
    | none =>
      if inAuth then filterKyselyLines (!lineHasSemi l) rest
      else if keepChecks l then l :: filterKyselyLines false rest
      else filterKyselyLines false rest

/-- `code.split("\n")` over the character list. -/
def splitLinesChars (cs : List Char) : List (List Char) :=
  match cs with
  | [] => [[]]
  | c :: rest =>
    if c = '\n' then [] :: splitLinesChars rest
    else
      match splitLinesChars rest with
      | [] => [[c]]
      | l :: ls => (c :: l) :: ls

/-- The line list of the input. -/
def splitLines (s : String) : List String :=
  (splitLinesChars s.data).map String.mk

/-- `lines.join("\n")` over character lists. -/
def joinLinesChars : List (List Char) → List Char
  | [] => []
  | [l] => l
  | l :: ls => l ++ '\n' :: joinLinesChars ls

/-- `.trim()`: strip the JS whitespace class from both ends. -/
def trimChars (cs : List Char) : List Char :=
  ((cs.dropWhile isWsChar).reverse.dropWhile isWsChar).reverse

/-- `filterKyselyAuthTables`: split on newlines, filter, join, trim. -/
def filterKyselyAuthTables (code : String) : String :=
  String.mk
    (trimChars (joinLinesChars ((filterKyselyLines false (splitLines code)).map String.data)))

end FilterAuth

namespace Btst

/-! ## Invariant vocabulary used by the theorems -/

/-- Declared fields never use the reserved name `id` (the identifier is
implicit per §3). -/
def WFSchema (s : Schema) : Prop :=
  ∀ p ∈ s, ∀ q ∈ p.2.fields, q.1 ≠ "id"

/-- Every stored record has a non-null identifier. -/
def WFStore (st : Store) : Prop :=
  ∀ m : String, ∀ r ∈ getTable st m, ∃ v, idOf r = some v ∧ v ≠ Value.null

/-- The record a successful create appends. -/
def mkNewRec (md : ModelDefinition) (data : Rec) (n : Nat) : Rec :=
  let d := applyDefaults md data
  if hasField d "id" then d else ("id", Value.str (genId n)) :: d

/-- A record is derived from another when it has the same identifier and
each field either kept its value or was set to `null`. -/
def DerivesRec (r' r : Rec) : Prop :=
  idOf r' = idOf r ∧ ∀ f, getField r' f = getField r f ∨ getField r' f = some Value.null

/-- Every record of the table is derived from a record of the other
table (deletion and `setNull` only shrink or null-out). -/
def DerivesTable (t' t : List Rec) : Prop :=
  ∀ r' ∈ t', ∃ r ∈ t, DerivesRec r' r

/-- Table-wise derivation between stores. -/
def DerivesStore (st' st : Store) : Prop :=
  ∀ m : String, DerivesTable (getTable st' m) (getTable st m)

/-- All records still cascade-referencing identity `(m2, i)` are
themselves in-progress deletions (their identity is in `visited`). -/
def CleanExcept (s : Schema) (st : Store) (visited : List (String × Value))
    (m2 : String) (i : Value) : Prop :=
  ∀ e ∈ referencingEdges s m2, e.policy = .cascade →
    ∀ r ∈ getTable st e.child, getField r e.field = some i →
      ∃ j, idOf r = some j ∧ (e.child, j) ∈ visited

/-- Number of distinct record identities of the store not yet visited:
the termination measure of the cascade recursion. -/
def numUnvisited (st : Store) (visited : List (String × Value)) : Nat :=
  ((identities st).dedup.filter (fun p => !(visited.contains p))).length

/-- Decidable sufficient check for `WFStore`, used by witnesses. -/
def WFStoreB (st : Store) : Bool :=
  st.all (fun p => p.2.all (fun r => (idOf r).isSome && !(idOf r == some Value.null)))

/-- Induction package for `delRec` at a given fuel: successful runs
derive from the input store, shrink its identity set, remove the target
when it was unvisited and present, and leave any removed identity
cascade-clean up to the visited set. -/
def RecInvP (s : Schema) (n : Nat) : Prop :=
  ∀ (visited : List (String × Value)) (m : String) (rid : Value) (store store' : Store),
    WFSchema s → WFStore store →
    delRec s n visited m rid store = .ok store' →
    (DerivesStore store' store ∧ ∀ p ∈ identities store', p ∈ identities store) ∧
    ((m, rid) ∉ visited → recordExists store m rid = true →
      recordExists store' m rid = false) ∧
    (∀ (m2 : String) (i : Value), i ≠ Value.null →
      recordExists store m2 i = true → recordExists store' m2 i = false →
      (m2, i) ∈ visited ∨ CleanExcept s store' visited m2 i)

/-- Induction package for `delChildren`: additionally, every listed
child ends up visited-by-an-ancestor or absent. -/
def ChildInvP (s : Schema) (n : Nat) : Prop :=
  ∀ (visited : List (String × Value)) (child : String) (kids : List Value)
    (store store' : Store),
    WFSchema s → WFStore store →
    delChildrenF (delRec s n visited) child kids store = .ok store' →
    (DerivesStore store' store ∧ ∀ p ∈ identities store', p ∈ identities store) ∧
    (∀ c ∈ kids, (child, c) ∈ visited ∨ recordExists store' child c = false) ∧
    (∀ (m2 : String) (i : Value), i ≠ Value.null →
      recordExists store m2 i = true → recordExists store' m2 i = false →
      (m2, i) ∈ visited ∨ CleanExcept s store' visited m2 i)

/-- Induction package for `delEdges`: additionally, after the pass every
surviving record cascade-referencing the deleted id is itself in the
visited set. -/
def EdgeInvP (s : Schema) (n : Nat) : Prop :=
  ∀ (visited : List (String × Value)) (rid : Value) (edges : List Edge)
    (store store' : Store),
    WFSchema s → WFStore store → rid ≠ Value.null →
    (∀ e ∈ edges, e.field ≠ "id") →
    delEdgesF (delRec s n visited) rid edges store = .ok store' →
    (DerivesStore store' store ∧ ∀ p ∈ identities store', p ∈ identities store) ∧
    (∀ e ∈ edges, e.policy = .cascade →
      ∀ r ∈ getTable store' e.child, getField r e.field = some rid →
        ∃ j, idOf r = some j ∧ (e.child, j) ∈ visited) ∧
    (∀ (m2 : String) (i : Value), i ≠ Value.null →
      recordExists store m2 i = true → recordExists store' m2 i = false →
      (m2, i) ∈ visited ∨ CleanExcept s store' visited m2 i)

/-- Fuel adequacy for `delRec`. -/
def RecFuelP (s : Schema) (n : Nat) : Prop :=
  ∀ (visited : List (String × Value)) (m : String) (rid : Value) (store : Store),
    WFSchema s → WFStore store → n ≥ 1 + numUnvisited store visited →
    delRec s n visited m rid store ≠ .error .Internal

/-- Fuel adequacy for `delChildren`. -/
def ChildFuelP (s : Schema) (n : Nat) : Prop :=
  ∀ (visited : List (String × Value)) (child : String) (kids : List Value) (store : Store),
    WFSchema s → WFStore store → n ≥ 1 + numUnvisited store visited →
    delChildrenF (delRec s n visited) child kids store ≠ .error .Internal

/-- Fuel adequacy for `delEdges`. -/
def EdgeFuelP (s : Schema) (n : Nat) : Prop :=
  ∀ (visited : List (String × Value)) (rid : Value) (edges : List Edge) (store : Store),
    WFSchema s → WFStore store → (∀ e ∈ edges, e.field ≠ "id") →
    n ≥ 1 + numUnvisited store visited →
    delEdgesF (delRec s n visited) rid edges store ≠ .error .Internal

end Btst

namespace FilterAuth

/-- Step equation: an auth `CREATE TABLE` line starts (or continues) a
skip. -/
theorem fkl_cons_authCreate {l t : String} {ls : List String} {b : Bool}
    (h : firstCreateTable l.data = some t) (ha : isAuthTable t = true) :
    filterKyselyLines b (l :: ls) = filterKyselyLines true ls := by
  rw [filterKyselyLines, h]
  dsimp only
  rw [if_pos ha]

/-- Step equation: a non-auth `CREATE TABLE` line clears the skip flag
and falls through to the index/alter/references checks. -/
theorem fkl_cons_otherCreate {l t : String} {ls : List String} {b : Bool}
    (h : firstCreateTable l.data = some t) (ha : isAuthTable t = false) :
    filterKyselyLines b (l :: ls) =
      if keepChecks l = true then l :: filterKyselyLines false ls
      else filterKyselyLines false ls := by
  rw [filterKyselyLines, h]
  dsimp only
  rw [if_neg (by simp [ha])]

/-- Step equation: while skipping, a line with no `CREATE TABLE` match
is dropped; its semicolon ends the skip. -/
theorem fkl_cons_skip {l : String} {ls : List String}
    (h : firstCreateTable l.data = none) :
    filterKyselyLines true (l :: ls) = filterKyselyLines (!lineHasSemi l) ls := by
  rw [filterKyselyLines, h]
  dsimp only
  rw [if_pos rfl]

/-- Step equation: outside a skip, a line with no `CREATE TABLE` match
goes through the index/alter/references checks. -/
theorem fkl_cons_keep {l : String} {ls : List String}
    (h : firstCreateTable l.data = none) :
    filterKyselyLines false (l :: ls) =
      if keepChecks l = true then l :: filterKyselyLines false ls
      else filterKyselyLines false ls := by
  rw [filterKyselyLines, h]
  dsimp only
  rw [if_neg (by simp)]

/-- Every line surviving the filter loop passes all four auth-table
checks of the source (create/index/alter/references, each taken as the
line's first regex match). -/
theorem mem_filterKyselyLines {b : Bool} {ls : List String} {l : String}
    (h : l ∈ filterKyselyLines b ls) :
    createsAuthLine l = false ∧ indexAuthLine l = false ∧
      alterAuthLine l = false ∧ refAuthLine l = false := by
  induction ls generalizing b with
  | nil => simp [filterKyselyLines] at h
  | cons x xs ih =>
    cases hc : firstCreateTable x.data with
    | some t =>
      cases ha : isAuthTable t with
      | true =>
        rw [fkl_cons_authCreate hc ha] at h
        exact ih h
      | false =>
        rw [fkl_cons_otherCreate hc ha] at h
        by_cases hk : keepChecks x = true
        · rw [if_pos hk] at h
          rcases List.mem_cons.mp h with h | h
          · subst h
            have hks := hk
            simp only [keepChecks, Bool.and_eq_true, Bool.not_eq_true'] at hks
            exact ⟨by simp [createsAuthLine, hc, ha], hks.1.1, hks.1.2, hks.2⟩
          · exact ih h
        · rw [if_neg hk] at h
          exact ih h
    | none =>
      cases b with
      | true =>
        rw [fkl_cons_skip hc] at h
        exact ih h
      | false =>
        rw [fkl_cons_keep hc] at h
        by_cases hk : keepChecks x = true
        · rw [if_pos hk] at h
          rcases List.mem_cons.mp h with h | h
          · subst h
            have hks := hk
            simp only [keepChecks, Bool.and_eq_true, Bool.not_eq_true'] at hks
            exact ⟨by simp [createsAuthLine, hc], hks.1.1, hks.1.2, hks.2⟩
          · exact ih h
        · rw [if_neg hk] at h
          exact ih h

/-- A skipped auth `CREATE TABLE` statement is removed up to and
including its semicolon line, provided no intervening line matches a
non-auth `CREATE TABLE` (which would end the skip early). -/
theorem filterKyselyLines_skipBlock (t l0 lsemi : String) (mid tail : List String)
    (h0 : firstCreateTable l0.data = some t) (h0a : isAuthTable t = true)
    (hmid : ∀ l ∈ mid,
      (match firstCreateTable l.data with
       | some u => isAuthTable u
       | none => true) = true ∧ lineHasSemi l = false)
    (hsC : firstCreateTable lsemi.data = none) (hsS : lineHasSemi lsemi = true) :
    filterKyselyLines false (l0 :: (mid ++ lsemi :: tail)) = filterKyselyLines false tail := by
  have hskip : ∀ mid' : List String,
      (∀ l ∈ mid',
        (match firstCreateTable l.data with
         | some u => isAuthTable u
         | none => true) = true ∧ lineHasSemi l = false) →
      filterKyselyLines true (mid' ++ lsemi :: tail) = filterKyselyLines false tail := by
    intro mid'
    induction mid' with
    | nil =>
      intro _
      rw [List.nil_append, fkl_cons_skip hsC, hsS, Bool.not_true]
    | cons y ys ih =>
      intro hm
      obtain ⟨h1, h2⟩ := hm y (by simp)
      have htl := ih (fun l hl => hm l (by simp [hl]))
      cases hc : firstCreateTable y.data with
      | some u =>
        rw [hc] at h1
        have h1' : isAuthTable u = true := h1
        rw [List.cons_append, fkl_cons_authCreate hc h1']
        exact htl
      | none =>
        rw [List.cons_append, fkl_cons_skip hc, h2, Bool.not_false]
        exact htl
  rw [fkl_cons_authCreate h0 h0a]
  exact hskip mid hmid

/-- C10 (amended): for every input, the output of the Kysely auth-table
filter contains no line whose first `CREATE TABLE` match names a table
in `DEFAULT_AUTH_TABLES` (case-insensitively), and no line whose first
`CREATE INDEX ... ON`, `ALTER TABLE` or `REFERENCES` match names such a
table; and the lines of a skipped auth `CREATE TABLE` statement up to
and including its terminating semicolon line are removed, provided no
intervening line itself matches a `CREATE TABLE` pattern (a non-auth
match ends the skip early and is processed normally). -/
theorem kysely_filter_amended :
    (∀ (b : Bool) (ls : List String) (l : String), l ∈ filterKyselyLines b ls →
      createsAuthLine l = false ∧ indexAuthLine l = false ∧
        alterAuthLine l = false ∧ refAuthLine l = false) ∧
    (∀ (t l0 lsemi : String) (mid tail : List String),
      firstCreateTable l0.data = some t → isAuthTable t = true →
      (∀ l ∈ mid,
        (match firstCreateTable l.data with
         | some u => isAuthTable u
         | none => true) = true ∧ lineHasSemi l = false) →
      firstCreateTable lsemi.data = none → lineHasSemi lsemi = true →
      filterKyselyLines false (l0 :: (mid ++ lsemi :: tail)) = filterKyselyLines false tail) :=
  ⟨fun _ _ _ h => mem_filterKyselyLines h, filterKyselyLines_skipBlock⟩

/-- Witness for C10 (amended) at concrete inputs: a surviving line is
free of auth-table matches, and a two-line auth statement plus its
semicolon line is removed while the following line is kept. -/
theorem kysely_filter_amended_witness :
    indexAuthLine "CREATE TABLE \"post\" (" = false ∧
    filterKyselyLines false ["CREATE TABLE \"user\" (", " \"id\" text,", ");", "keep me"] =
      filterKyselyLines false ["keep me"] :=
  ⟨(kysely_filter_amended.1 false ["CREATE TABLE \"post\" ("] "CREATE TABLE \"post\" ("
      (by decide)).2.1,
   kysely_filter_amended.2 "user" "CREATE TABLE \"user\" (" ");" [" \"id\" text,"] ["keep me"]
     (by decide) (by decide) (by decide) (by decide) (by decide)⟩

/-- C10 counterexample: deleting an auth `CREATE TABLE` statement does
not always remove all its lines up to the terminating semicolon.  Here
the first line starts a skipped statement for the auth table `user`, but
the second line — still before the semicolon — contains the text
`CREATE TABLE post`, which the source's `createMatch` check (it runs
even while skipping) takes as a non-auth table, ending the skip; the
second and third lines of the statement therefore survive in the
output, contradicting the claim. -/
theorem kysely_filter_counterexample :
    firstCreateTable ("CREATE TABLE user (").data = some "user" ∧
    isAuthTable "user" = true ∧
    lineHasSemi " x TEXT, -- CREATE TABLE post" = false ∧
    filterKyselyLines false
        ["CREATE TABLE user (", " x TEXT, -- CREATE TABLE post", " y int", ");"] =
      [" x TEXT, -- CREATE TABLE post", " y int", ");"] ∧
    filterKyselyAuthTables "CREATE TABLE user (\n x TEXT, -- CREATE TABLE post\n y int\n);" =
      "x TEXT, -- CREATE TABLE post\n y int\n);" := by
  decide

end FilterAuth

namespace Btst

/-! ## Basic store and record lemmas -/

/-- Reading the table just written. -/
theorem getTable_setTable_self (st : Store) (m : String) (t : List Rec) :
    getTable (setTable st m t) m = t := by
  simp [setTable, getTable]

/-- Erasing one model's bindings leaves other tables unchanged. -/
theorem getTable_eraseTable_ne {m m' : String} (h : m' ≠ m) (st : Store) :
    getTable (eraseTable st m) m' = getTable st m' := by
  induction st with
  | nil => rfl
  | cons p rest ih =>
    obtain ⟨k, tb⟩ := p
    by_cases hk : k = m
    · subst hk
      have hne : ¬(k = m') := fun e => h e.symm
      simp [eraseTable, getTable, hne, List.filter_cons] at ih ⊢
      exact ih
    · by_cases hk' : k = m'
      · subst hk'
        simp [eraseTable, getTable, List.filter_cons, hk]
      · simp [eraseTable, getTable, List.filter_cons, hk, hk'] at ih ⊢
        exact ih

/-- Writing one model's table leaves other tables unchanged. -/
theorem getTable_setTable_ne {m m' : String} (h : m' ≠ m) (st : Store) (t : List Rec) :
    getTable (setTable st m t) m' = getTable st m' := by
  have hne : ¬(m = m') := fun e => h e.symm
  simp [setTable, getTable, hne, getTable_eraseTable_ne h st]

/-- Reading the field just set. -/
theorem getField_setField_self (r : Rec) (f : String) (v : Value) :
    getField (setField r f v) f = some v := by
  induction r with
  | nil => simp [setField, getField]
  | cons q rest ih =>
    obtain ⟨g, w⟩ := q
    by_cases hg : g = f
    · simp [setField, getField, hg]
    · simp [setField, getField, hg, ih]

/-- Setting a different field does not change a read. -/
theorem getField_setField_ne {f g : String} (h : g ≠ f) (r : Rec) (v : Value) :
    getField (setField r f v) g = getField r g := by
  induction r with
  | nil => simp [setField, getField, Ne.symm h]
  | cons q rest ih =>
    obtain ⟨k, w⟩ := q
    by_cases hk : k = f
    · subst hk
      simp [setField, getField, Ne.symm h]
    · simp [setField, getField, hk, ih]

/-- Field reads across an append take the first list's binding first. -/
theorem getField_append (a b : Rec) (f : String) :
    getField (a ++ b) f =
      match getField a f with
      | some v => some v
      | none => getField b f := by
  induction a with
  | nil => simp [getField]
  | cons q rest ih =>
    obtain ⟨g, w⟩ := q
    by_cases hg : g = f <;> simp [getField, hg, ih]

/-- A list whose keys all avoid `f` yields no binding for `f`. -/
theorem getField_eq_none (l : Rec) (f : String) (h : ∀ q ∈ l, q.1 ≠ f) :
    getField l f = none := by
  induction l with
  | nil => rfl
  | cons q rest ih =>
    have hq := h q (by simp)
    simp [getField, hq]
    exact ih (fun p hp => h p (by simp [hp]))

/-- A key that is bound somewhere in the list is readable. -/
theorem getField_isSome_of_mem {l : Rec} {f : String} {v : Value} (h : (f, v) ∈ l) :
    (getField l f).isSome = true := by
  induction l with
  | nil => cases h
  | cons q rest ih =>
    obtain ⟨g, w⟩ := q
    by_cases hg : g = f
    · simp [getField, hg]
    · rcases List.mem_cons.mp h with h | h
      · cases h; simp at hg
      · simp [getField, hg, ih h]

/-- A successful model lookup is a membership. -/
theorem lookupModel_mem {s : Schema} {m : String} {md : ModelDefinition}
    (h : lookupModel s m = some md) : (m, md) ∈ s := by
  induction s with
  | nil => cases h
  | cons p rest ih =>
    obtain ⟨k, d⟩ := p
    by_cases hk : k = m
    · subst hk
      simp [lookupModel] at h
      simp [h]
    · simp [lookupModel, hk] at h
      exact List.mem_cons.mpr (Or.inr (ih h))

end Btst

namespace Btst

/-! ## Create and update: helper lemmas -/

/-- A create whose three checks pass appends `mkNewRec`. -/
theorem createCore_ok_of_checks {md : ModelDefinition} {table : List Rec} {data : Rec}
    {n : Nat} (hreq : requiredOk md (applyDefaults md data) = true)
    (hty : typesOk md (applyDefaults md data) = true)
    (huq : uniqueOk md table (applyDefaults md data) = true) :
    createCore md table data n = .ok (mkNewRec md data n, table ++ [mkNewRec md data n]) := by
  simp only [createCore, mkNewRec, hreq, hty, huq]
  simp

/-- A successful `createCore` returns exactly `mkNewRec` appended. -/
theorem createCore_ok_inv {md : ModelDefinition} {table : List Rec} {data : Rec}
    {n : Nat} {pr : Rec × List Rec} (h : createCore md table data n = .ok pr) :
    pr.1 = mkNewRec md data n ∧ pr.2 = table ++ [mkNewRec md data n] := by
  simp only [createCore] at h
  split at h
  · cases h
  · split at h
    · cases h
    · split at h
      · cases h
      · cases h
        exact ⟨rfl, rfl⟩

/-- `create` with passing checks succeeds with `mkNewRec`. -/
theorem create_ok_of_checks {s : Schema} {store : Store} {m : String}
    {md : ModelDefinition} {data : Rec} {n : Nat}
    (hm : lookupModel s m = some md)
    (hreq : requiredOk md (applyDefaults md data) = true)
    (hty : typesOk md (applyDefaults md data) = true)
    (huq : uniqueOk md (getTable store m) (applyDefaults md data) = true) :
    create s store m data n =
      .ok (mkNewRec md data n, setTable store m (getTable store m ++ [mkNewRec md data n])) := by
  simp only [create, hm, createCore_ok_of_checks hreq hty huq]

/-- Reading any field other than `id` off the created record reads the
defaulted data. -/
theorem getField_mkNewRec_ne_id {md : ModelDefinition} {data : Rec} {n : Nat}
    {f : String} (hf : f ≠ "id") :
    getField (mkNewRec md data n) f = getField (applyDefaults md data) f := by
  simp only [mkNewRec]
  split
  · rfl
  · simp [getField, Ne.symm hf]

/-- The defaults block of `applyDefaults` binds no `id` when the schema
fields avoid `id`. -/
theorem getField_applyDefaults_id {md : ModelDefinition} {data : Rec}
    (hfld : ∀ q ∈ md.fields, q.1 ≠ "id") :
    getField (applyDefaults md data) "id" = getField data "id" := by
  rw [applyDefaults, getField_append]
  cases hd : getField data "id" with
  | some v => rfl
  | none =>
    rw [getField_eq_none]
    intro q hq
    rcases List.mem_filterMap.mp hq with ⟨p, hp, hpq⟩
    by_cases hh : hasField data p.1 = true
    · simp [hh] at hpq
    · simp only [Bool.not_eq_true] at hh
      simp only [hh, Bool.false_eq_true, if_false, Option.map_eq_some'] at hpq
      rcases hpq with ⟨v, _, hv⟩
      rw [← hv]
      exact hfld p hp

/-- The generated identifier is never the empty string. -/
theorem genId_ne_empty (n : Nat) : genId n ≠ "" := by
  intro h
  have hd := congrArg String.data h
  rw [genId] at hd
  simp [String.data_append] at hd

end Btst

namespace Btst

/-! ## Claim C3: unique constraints are scoped to the model -/

/-- C3: creating a second record with a duplicate value on a `unique`
field of the same model fails with `UniqueConstraintViolation` and
leaves the table unchanged, while a create carrying the same value (in a
same-named field) addressed to a different model succeeds, because the
unique check consults only the addressed model's own table. -/
theorem unique_scoped_to_model :
    (∀ (s : Schema) (store : Store) (m : String) (md : ModelDefinition)
       (data : Rec) (n : Nat) (f : String) (fd : FieldDefinition) (v : Value) (e : Rec),
      lookupModel s m = some md → (f, fd) ∈ md.fields → fd.unique = true →
      e ∈ getTable store m → getField e f = some v →
      getField (applyDefaults md data) f = some v →
      requiredOk md (applyDefaults md data) = true →
      typesOk md (applyDefaults md data) = true →
      create s store m data n = .error .UniqueConstraintViolation ∧
        createStore s store m data n = store) ∧
    (∀ (s : Schema) (store : Store) (m2 : String) (md2 : ModelDefinition)
       (data2 : Rec) (n : Nat) (f : String) (v : Value),
      lookupModel s m2 = some md2 → f ≠ "id" →
      getField (applyDefaults md2 data2) f = some v →
      requiredOk md2 (applyDefaults md2 data2) = true →
      typesOk md2 (applyDefaults md2 data2) = true →
      uniqueOk md2 (getTable store m2) (applyDefaults md2 data2) = true →
      ∃ r st', create s store m2 data2 n = .ok (r, st') ∧ getField r f = some v) := by
  constructor
  · intro s store m md data n f fd v e hm hfd hu he hev hd hreq hty
    have hu0 : uniqueOk md (getTable store m) (applyDefaults md data) = false := by
      cases hcase : uniqueOk md (getTable store m) (applyDefaults md data)
      · rfl
      · exfalso
        have hall := List.all_eq_true.mp hcase (f, fd) hfd
        simp only [hu, hd, Bool.not_true, Bool.false_or] at hall
        have hee := List.all_eq_true.mp hall e he
        simp [hev] at hee
    have hcr : create s store m data n = .error .UniqueConstraintViolation := by
      simp only [create, hm, createCore, hreq, hty, hu0]
      simp
    refine ⟨hcr, ?_⟩
    simp [createStore, hcr]
  · intro s store m2 md2 data2 n f v hm hf hd hreq hty huq
    refine ⟨mkNewRec md2 data2 n, _, create_ok_of_checks hm hreq hty huq, ?_⟩
    rw [getField_mkNewRec_ne_id hf]
    exact hd

/-- Witness for C3: in the populated sample store, re-creating an author
with the already-taken unique email `j@x` fails, while creating a
visitor (a different model with a same-named unique `email` field)
holding the same value succeeds. -/
theorem unique_scoped_to_model_witness :
    create emailSchema emailStore "author" [("name", .str "X"), ("email", .str "j@x")] 9 =
      .error .UniqueConstraintViolation ∧
    ∃ r st',
      create emailSchema emailStore "visitor" [("email", .str "j@x")] 9 = .ok (r, st') ∧
        getField r "email" = some (.str "j@x") :=
  ⟨(unique_scoped_to_model.1 emailSchema emailStore "author" authorMD
      [("name", .str "X"), ("email", .str "j@x")] 9 "email" uniqStrF (.str "j@x") sampleAuthor
      (by decide) (by decide) (by decide) (by decide) (by decide) (by decide) (by decide)
      (by decide)).1,
   unique_scoped_to_model.2 emailSchema emailStore "visitor" visitorMD
      [("email", .str "j@x")] 9 "email" (.str "j@x")
      (by decide) (by decide) (by decide) (by decide) (by decide) (by decide)⟩

end Btst

namespace Btst

/-! ## Claim C6: references are ignored at write time -/

/-- C6: `create` and `update` read and decide only on the addressed
model's own table — two stores agreeing on that table yield the same
error, the same returned record, and (for create) the same resulting own
table, whatever the referenced models' tables hold; consequently a
record whose `references`-carrying field holds any value (including a
dangling one) is accepted whenever the required/type/unique checks pass.
The reference is interpreted only at join and delete time. -/
theorem writes_ignore_references :
    (∀ (s : Schema) (m : String) (data : Rec) (n : Nat) (store1 store2 : Store),
      getTable store1 m = getTable store2 m →
      createErr s store1 m data n = createErr s store2 m data n ∧
      createRec s store1 m data n = createRec s store2 m data n ∧
      getTable (createStore s store1 m data n) m =
        getTable (createStore s store2 m data n) m) ∧
    (∀ (s : Schema) (m : String) (w : List Pred) (data : Rec) (store1 store2 : Store),
      getTable store1 m = getTable store2 m →
      updateErr s store1 m w data = updateErr s store2 m w data ∧
      updateRec s store1 m w data = updateRec s store2 m w data) ∧
    (∀ (s : Schema) (store : Store) (m : String) (md : ModelDefinition) (data : Rec) (n : Nat)
       (f : String) (fd : FieldDefinition) (ref : Reference) (v : Value),
      lookupModel s m = some md → (f, fd) ∈ md.fields → fd.references = some ref →
      f ≠ "id" → getField (applyDefaults md data) f = some v →
      requiredOk md (applyDefaults md data) = true →
      typesOk md (applyDefaults md data) = true →
      uniqueOk md (getTable store m) (applyDefaults md data) = true →
      ∃ r st', create s store m data n = .ok (r, st') ∧ getField r f = some v) := by
  refine ⟨?_, ?_, ?_⟩
  · intro s m data n store1 store2 h
    cases hm : lookupModel s m with
    | none => simp [createErr, createRec, createStore, create, hm, h]
    | some md =>
      have hq : createCore md (getTable store2 m) data n =
          createCore md (getTable store1 m) data n := by rw [h]
      cases hc : createCore md (getTable store1 m) data n with
      | error e =>
        have hc2 := hq.trans hc
        simp [createErr, createRec, createStore, create, hm, hc, hc2, h]
      | ok pr =>
        have hc2 := hq.trans hc
        simp [createErr, createRec, createStore, create, hm, hc, hc2,
          getTable_setTable_self]
  · intro s m w data store1 store2 h
    cases hm : lookupModel s m with
    | none => simp [updateErr, updateRec, update, hm]
    | some md =>
      simp only [updateErr, updateRec, update, hm, h]
      cases hf : (getTable store2 m).find? (fun x => matchesWhere x w) with
      | none => simp [hf]
      | some r0 =>
        simp only [hf]
        by_cases h1 : typesOk md (applyUpdates r0 data) = false
        · simp [h1]
        · by_cases h2 : uniqueOk md
              (List.eraseP (fun x => matchesWhere x w) (getTable store2 m))
              (applyUpdates r0 data) = false
          · simp [h1, h2]
          · simp [h1, h2]
  · intro s store m md data n f fd ref v hm hfd href hf hd hreq hty huq
    refine ⟨mkNewRec md data n, _, create_ok_of_checks hm hreq hty huq, ?_⟩
    rw [getField_mkNewRec_ne_id hf]
    exact hd

/-- Witness for C6: a book with a dangling `authorId` (`ghost` exists in
no author table) is created successfully, and the create decides the
same way on a store whose author table is empty. -/
theorem writes_ignore_references_witness :
    (∃ r st',
      create testSchema sampleStore "book"
          [("title", .str "T"), ("authorId", .str "ghost")] 7 = .ok (r, st') ∧
        getField r "authorId" = some (.str "ghost")) ∧
    createErr testSchema [("book", [])] "book"
        [("title", .str "T"), ("authorId", .str "ghost")] 7 =
      createErr testSchema [("book", []), ("author", [sampleAuthor])] "book"
        [("title", .str "T"), ("authorId", .str "ghost")] 7 :=
  ⟨writes_ignore_references.2.2 testSchema sampleStore "book" bookMD
      [("title", .str "T"), ("authorId", .str "ghost")] 7 "authorId"
      (refF "author" .cascade) ⟨"author", "id", .cascade⟩ (.str "ghost")
      (by decide) (by decide) (by decide) (by decide) (by decide) (by decide) (by decide)
      (by decide),
   (writes_ignore_references.1 testSchema "book"
      [("title", .str "T"), ("authorId", .str "ghost")] 7
      [("book", [])] [("book", []), ("author", [sampleAuthor])] (by decide)).1⟩

/-! ## Claim C8: cross-table isolation -/

/-- C8: a create or update addressed to model `m` leaves the table of
every other model unchanged. -/
theorem cross_table_isolation :
    (∀ (s : Schema) (store : Store) (m m' : String) (data : Rec) (n : Nat)
       (r : Rec) (st' : Store),
      m' ≠ m → create s store m data n = .ok (r, st') →
      getTable st' m' = getTable store m') ∧
    (∀ (s : Schema) (store : Store) (m m' : String) (w : List Pred) (data : Rec)
       (r : Rec) (st' : Store),
      m' ≠ m → update s store m w data = .ok (r, st') →
      getTable st' m' = getTable store m') := by
  constructor
  · intro s store m m' data n r st' hne h
    cases hm : lookupModel s m with
    | none => simp [create, hm] at h
    | some md =>
      cases hc : createCore md (getTable store m) data n with
      | error e => simp [create, hm, hc] at h
      | ok pr =>
        obtain ⟨r0, t0⟩ := pr
        simp only [create, hm, hc] at h
        cases h
        exact getTable_setTable_ne hne store t0
  · intro s store m m' w data r st' hne h
    cases hm : lookupModel s m with
    | none => simp [update, hm] at h
    | some md =>
      cases hf : (getTable store m).find? (fun x => matchesWhere x w) with
      | none => simp [update, hm, hf] at h
      | some r0 =>
        simp only [update, hm, hf] at h
        split at h
        · cases h
        · split at h
          · cases h
          · cases h
            exact getTable_setTable_ne hne store _

/-- Witness for C8: creating a todo leaves the message table empty, in
the two-model scenario of the adapter test-suite. -/
theorem cross_table_isolation_witness :
    getTable [("todo", [[("id", Value.str "r0"), ("title", Value.str "My Todo")]]),
        ("message", [])] "message" =
      getTable tmStore "message" :=
  cross_table_isolation.1 tmSchema tmStore "todo" "message"
    [("title", .str "My Todo")] 0
    [("id", Value.str "r0"), ("title", Value.str "My Todo")]
    [("todo", [[("id", Value.str "r0"), ("title", Value.str "My Todo")]]), ("message", [])]
    (by decide) (by rfl)

end Btst

namespace Btst

/-! ## Claim C9: identifier and defaults on create -/

/-- C9: a successful create returns a record whose identifier is the
supplied one when present and the freshly generated, non-empty one
otherwise, and in which every field with a `defaultValue` holds a
concrete value. -/
theorem create_id_and_defaults :
    ∀ (s : Schema) (store : Store) (m : String) (md : ModelDefinition) (data : Rec)
      (n : Nat) (r : Rec) (st' : Store),
      WFSchema s → lookupModel s m = some md →
      create s store m data n = .ok (r, st') →
      (hasField data "id" = true → getField r "id" = getField data "id") ∧
      (hasField data "id" = false →
        getField r "id" = some (.str (genId n)) ∧ genId n ≠ "") ∧
      (∀ q ∈ md.fields, q.2.defaultValue.isSome = true → (getField r q.1).isSome = true) := by
  intro s store m md data n r st' hwf hm h
  have hfld : ∀ q ∈ md.fields, q.1 ≠ "id" := hwf (m, md) (lookupModel_mem hm)
  have hr : r = mkNewRec md data n := by
    cases hc : createCore md (getTable store m) data n with
    | error e => simp [create, hm, hc] at h
    | ok pr =>
      obtain ⟨r0, t0⟩ := pr
      simp only [create, hm, hc] at h
      cases h
      exact (createCore_ok_inv hc).1
  subst hr
  have hid : getField (applyDefaults md data) "id" = getField data "id" :=
    getField_applyDefaults_id hfld
  refine ⟨?_, ?_, ?_⟩
  · intro hdata
    have hd' : hasField (applyDefaults md data) "id" = true := by
      simp only [hasField, hid]
      exact hdata
    simp only [mkNewRec]
    rw [if_pos hd']
    exact hid
  · intro hdata
    have hd' : ¬(hasField (applyDefaults md data) "id" = true) := by
      simp only [hasField, hid]
      simp only [hasField] at hdata
      simp [hdata]
    simp only [mkNewRec]
    rw [if_neg hd']
    exact ⟨by simp [getField], genId_ne_empty n⟩
  · intro q hq hdv
    have hqid : q.1 ≠ "id" := hfld q hq
    rw [getField_mkNewRec_ne_id hqid, applyDefaults, getField_append]
    cases hgd : getField data q.1 with
    | some v => simp
    | none =>
      obtain ⟨dv, hdv'⟩ := Option.isSome_iff_exists.mp hdv
      have hmem : (q.1, dv) ∈ md.fields.filterMap
          (fun p => if hasField data p.1 then none
            else p.2.defaultValue.map (fun v => (p.1, v))) := by
        apply List.mem_filterMap.mpr
        refine ⟨q, hq, ?_⟩
        have hnf : hasField data q.1 = false := by simp [hasField, hgd]
        simp [hnf, hdv']
      simpa using getField_isSome_of_mem hmem

/-- Witness for C9: creating a book without an id yields the generated
id `r5`, and the defaulted `publishedAt` is set. -/
theorem create_id_and_defaults_witness :
    getField [("id", Value.str "r5"), ("title", Value.str "T"), ("authorId", Value.str "a1"),
      ("publishedAt", Value.date 0)] "id" = some (Value.str "r5") ∧
    (getField [("id", Value.str "r5"), ("title", Value.str "T"), ("authorId", Value.str "a1"),
      ("publishedAt", Value.date 0)] "publishedAt").isSome = true := by
  have hmain := create_id_and_defaults testSchema emptyStore "book" bookMD
    [("title", Value.str "T"), ("authorId", Value.str "a1")] 5
    [("id", Value.str "r5"), ("title", Value.str "T"), ("authorId", Value.str "a1"),
      ("publishedAt", Value.date 0)]
    [("book", [[("id", Value.str "r5"), ("title", Value.str "T"),
      ("authorId", Value.str "a1"), ("publishedAt", Value.date 0)]]),
     ("author", []), ("profile", [])]
    (by unfold WFSchema; decide) (by decide) (by rfl)
  refine ⟨(hmain.2.1 (by decide)).1, ?_⟩
  exact hmain.2.2 ("publishedAt", { type := .date, defaultValue := some (.date 0) })
    (by decide) (by decide)

end Btst

namespace Btst

/-! ## Joins: helper lemmas -/

/-- `find?` is the head of the filtered list. -/
theorem find?_eq_head?_filter {α : Type} (p : α → Bool) (l : List α) :
    l.find? p = (l.filter p).head? := by
  induction l with
  | nil => rfl
  | cons a l ih =>
    rw [List.find?_cons, List.filter_cons]
    cases h : p a
    · simp only [Bool.false_eq_true, if_false]
      exact ih
    · simp

/-- A singleton equality where-clause matches exactly the records whose
field equals the value. -/
theorem matchesWhere_eq_singleton (c : Rec) (f : String) (v : Value) :
    matchesWhere c [⟨f, .eq v, .andC⟩] = (getField c f == some v) := by
  have h0 : matchesWhere c [⟨f, .eq v, .andC⟩] = evalPred c ⟨f, .eq v, .andC⟩ := rfl
  rw [h0]
  cases hg : getField c f with
  | none => simp [evalPred, hg]
  | some u =>
    simp only [evalPred, hg, evalOp]
    cases hu : (u == v)
    · simp only [beq_eq_false_iff_ne] at hu
      symm
      rw [beq_eq_false_iff_ne]
      simp [hu]
    · simp only [beq_iff_eq] at hu
      subst hu
      simp

/-- The in-process join of one relation coincides with the fallback
one-query-per-relation path. -/
theorem attachOne_eq_fallback (s : Schema) (st : Store) (base : String) (r : Rec)
    (rel : String) (lim : Option Nat) :
    attachOne s st base r rel lim = attachOneFallback s st base r rel lim := by
  simp only [attachOne, attachOneFallback]
  cases hres : resolveRelation s base rel with
  | none => rfl
  | some fq =>
    cases hid : idOf r with
    | none => rfl
    | some rid =>
      have hfilter : (getTable st rel).filter (fun c => matchesWhere c [⟨fq.1, .eq rid, .andC⟩]) =
          (getTable st rel).filter (fun c => getField c fq.1 == some rid) := by
        apply List.filter_congr
        intro c _
        exact matchesWhere_eq_singleton c fq.1 rid
      cases hu : fq.2.unique
      · simp only [hu, Bool.false_eq_true, if_false]
        simp only [runFindMany]
        rw [hfilter]
        cases lim <;> rfl
      · simp only [hu, if_true]
        rw [findOneBase, hfilter, find?_eq_head?_filter]

end Btst

namespace Btst

/-! ## Claim C7: joins-enabled and fallback adapters agree -/

/-- C7: for every schema, store and find call with requested joins, the
adapter running the in-process join algorithm (`experimental.joins`) and
the fallback adapter issuing one query per requested relation return
identical results. -/
theorem joins_fallback_equivalent :
    ∀ (s : Schema) (st : Store) (m : String) (w : List Pred) (sb : Option SortBy)
      (lim off : Option Nat) (join : JoinReq),
      findManyJoin true s st m w sb lim off join =
        findManyJoin false s st m w sb lim off join ∧
      findOneJoin true s st m w join = findOneJoin false s st m w join := by
  intro s st m w sb lim off join
  have hatt : ∀ r : Rec, attachAll s st m join r = attachAllFallback s st m join r := by
    intro r
    simp only [attachAll, attachAllFallback]
    have : (fun q : String × Option Nat => attachOne s st m r q.1 q.2) =
        (fun q : String × Option Nat => attachOneFallback s st m r q.1 q.2) :=
      funext fun q => attachOne_eq_fallback s st m r q.1 q.2
    rw [this]
  constructor
  · simp only [findManyJoin, if_true]
    apply List.map_congr_left
    intro r _
    simp [hatt r]
  · simp only [findOneJoin, if_true]
    cases hb : findOneBase st m w <;> simp [hatt]

end Btst

namespace Btst

/-! ## Claim C4: one-to-one reverse relation attaches null when absent -/

/-- C4: when no record of the one-to-one target model references the
base record's id, `findOne`/`findMany` with the requested join return
the base record with the relation attribute present and equal to null —
never a failure, never an absent attribute. -/
theorem onetoone_absent_is_null :
    ∀ (s : Schema) (st : Store) (m rel : String) (w : List Pred)
      (fq : String × FieldDefinition) (r : Rec) (rid : Value) (sb : Option SortBy)
      (lim off : Option Nat),
      resolveRelation s m rel = some fq → fq.2.unique = true →
      (∀ c ∈ getTable st rel, getField c fq.1 ≠ some rid) →
      (findOneBase st m w = some r → getField r "id" = some rid →
        findOneJoin true s st m w [(rel, none)] = some (r, [(rel, .one none)])) ∧
      (r ∈ runFindMany st m w sb lim off → getField r "id" = some rid →
        (r, [(rel, .one none)]) ∈ findManyJoin true s st m w sb lim off [(rel, none)]) := by
  intro s st m rel w fq r rid sb lim off hres hu habs
  have hatt : ∀ x : Rec, getField x "id" = some rid →
      attachAll s st m [(rel, none)] x = (x, [(rel, .one none)]) := by
    intro x hid
    have hfind : (getTable st rel).find? (fun c => getField c fq.1 == some rid) = none := by
      apply List.find?_eq_none.mpr
      intro c hc
      simp [beq_iff_eq]
      exact habs c hc
    simp only [attachAll, List.filterMap_cons, List.filterMap_nil, attachOne, hres]
    rw [show idOf x = some rid from hid]
    simp [hu, hfind]
  constructor
  · intro hb hid
    simp only [findOneJoin, hb, if_true]
    simp [hatt r hid]
  · intro hmem hid
    simp only [findManyJoin, if_true]
    exact List.mem_map.mpr ⟨r, hmem, hatt r hid⟩

/-- Witness for C4: the author `a1` has no profile in the empty-profile
store; the one-to-one join attaches `profile = null`. -/
theorem onetoone_absent_is_null_witness :
    findOneBase [("author", [sampleAuthor]), ("profile", []), ("book", [])] "author"
        [⟨"id", .eq (.str "a1"), .andC⟩] = some sampleAuthor ∧
    findOneJoin true testSchema
        [("author", [sampleAuthor]), ("profile", []), ("book", [])] "author"
        [⟨"id", .eq (.str "a1"), .andC⟩] [("profile", none)] =
      some (sampleAuthor, [("profile", .one none)]) :=
  ⟨by decide,
   (onetoone_absent_is_null testSchema
      [("author", [sampleAuthor]), ("profile", []), ("book", [])] "author" "profile"
      [⟨"id", .eq (.str "a1"), .andC⟩] ("authorId", refUniqF "author" .cascade)
      sampleAuthor (.str "a1") none none none
      (by decide) (by decide) (by decide)).1 (by decide) (by decide)⟩

/-! ## Claim C5: one-to-many joins attach a deterministic prefix -/

/-- C5: a one-to-many join with limit `N` attaches exactly the first
`min N k` children in target-table insertion order (`k` the number of
matching children), and without a limit attaches all `k` in table
order. -/
theorem onetomany_limit_first_n :
    ∀ (s : Schema) (st : Store) (m rel : String) (fq : String × FieldDefinition)
      (r : Rec) (rid : Value) (k : Nat),
      resolveRelation s m rel = some fq → fq.2.unique = false →
      getField r "id" = some rid →
      attachOne s st m r rel (some k) =
        some (rel, .many
          (((getTable st rel).filter (fun c => getField c fq.1 == some rid)).take k)) ∧
      (((getTable st rel).filter (fun c => getField c fq.1 == some rid)).take k).length =
        min k ((getTable st rel).filter (fun c => getField c fq.1 == some rid)).length ∧
      attachOne s st m r rel none =
        some (rel, .many
          ((getTable st rel).filter (fun c => getField c fq.1 == some rid))) := by
  intro s st m rel fq r rid k hres hu hid
  refine ⟨?_, List.length_take k _, ?_⟩
  · simp only [attachOne, hres]
    rw [show idOf r = some rid from hid]
    simp [hu]
  · simp only [attachOne, hres]
    rw [show idOf r = some rid from hid]
    simp [hu]

/-- Witness for C5: the author `a1` owns two books; `limit 1` attaches
exactly the first book in insertion order, no limit attaches both. -/
theorem onetomany_limit_first_n_witness :
    attachOne testSchema sampleStore "author" sampleAuthor "book" (some 1) =
      some ("book", .many [sampleBook1]) ∧
    attachOne testSchema sampleStore "author" sampleAuthor "book" none =
      some ("book", .many [sampleBook1, sampleBook2]) := by
  have h := onetomany_limit_first_n testSchema sampleStore "author" "book"
    ("authorId", refF "author" .cascade) sampleAuthor (.str "a1") 1
    (by decide) (by decide) (by decide)
  refine ⟨?_, ?_⟩
  · rw [h.1]; decide
  · rw [h.2.2]; decide

end Btst

namespace Btst

/-! ## Claim C2: restrict blocks the delete, store unchanged -/

/-- C2: deleting a record referenced by an existing child through a
`restrict` field fails with `ReferentialIntegrityError` and returns the
store exactly as it was: the restrict checks run before any mutation. -/
theorem restrict_blocks_delete :
    ∀ (s : Schema) (store : Store) (m : String) (rid : Value) (e : Edge) (c : Rec),
      recordExists store m rid = true →
      e ∈ referencingEdges s m → e.policy = .restrict →
      c ∈ getTable store e.child → getField c e.field = some rid →
      deleteById s store m rid = (some .ReferentialIntegrityError, store) := by
  intro s store m rid e c hex hedge hpol hc hcv
  have hrv : restrictViolated s store m rid = true := by
    apply List.any_eq_true.mpr
    refine ⟨e, hedge, ?_⟩
    rw [Bool.and_eq_true]
    refine ⟨by simp [hpol], ?_⟩
    exact List.any_eq_true.mpr ⟨c, hc, by simp [beq_iff_eq, hcv]⟩
  have hstep : delRec s (fuelFor store) [] m rid store = .error .ReferentialIntegrityError := by
    have hf : fuelFor store = Nat.succ (totalRecords store) := rfl
    rw [hf]
    simp only [delRec]
    simp [hex, hrv]
  rw [deleteById, hstep]

/-- Witness for C2: with the profile reference declared `restrict` and a
profile of `a1` present, deleting author `a1` fails and the populated
store is returned unchanged. -/
theorem restrict_blocks_delete_witness :
    deleteById testSchemaR sampleStore "author" (.str "a1") =
      (some .ReferentialIntegrityError, sampleStore) :=
  restrict_blocks_delete testSchemaR sampleStore "author" (.str "a1")
    ⟨"profile", "authorId", .restrict⟩ sampleProfile
    (by decide) (by decide) (by decide) (by decide) (by decide)

end Btst

namespace Btst

/-! ## Derivation lemmas for the delete development -/

/-- Derivation is reflexive. -/
theorem derivesRec_refl (r : Rec) : DerivesRec r r :=
  ⟨rfl, fun _ => Or.inl rfl⟩

/-- Derivation of records is transitive. -/
theorem derivesRec_trans {r'' r' r : Rec} (h1 : DerivesRec r'' r') (h2 : DerivesRec r' r) :
    DerivesRec r'' r :=
  ⟨h1.1.trans h2.1, fun f => by
    rcases h1.2 f with he | hn
    · rw [he]
      exact h2.2 f
    · exact Or.inr hn⟩

/-- Table derivation is reflexive. -/
theorem derivesTable_refl (t : List Rec) : DerivesTable t t :=
  fun r hr => ⟨r, hr, derivesRec_refl r⟩

/-- Table derivation is transitive. -/
theorem derivesTable_trans {t'' t' t : List Rec} (h1 : DerivesTable t'' t')
    (h2 : DerivesTable t' t) : DerivesTable t'' t := by
  intro r'' hr''
  obtain ⟨r', hr', hd1⟩ := h1 r'' hr''
  obtain ⟨r, hr, hd2⟩ := h2 r' hr'
  exact ⟨r, hr, derivesRec_trans hd1 hd2⟩

/-- Store derivation is reflexive. -/
theorem derivesStore_refl (st : Store) : DerivesStore st st :=
  fun m => derivesTable_refl (getTable st m)

/-- Store derivation is transitive. -/
theorem derivesStore_trans {st'' st' st : Store} (h1 : DerivesStore st'' st')
    (h2 : DerivesStore st' st) : DerivesStore st'' st :=
  fun m => derivesTable_trans (h1 m) (h2 m)

/-- The `setNull` pass derives from the original store. -/
theorem derivesStore_setNullTable {st : Store} {m f : String} {rid : Value}
    (hf : f ≠ "id") : DerivesStore (setNullTable st m f rid) st := by
  intro m'
  by_cases hm : m' = m
  · subst hm
    rw [setNullTable, getTable_setTable_self]
    intro r' hr'
    obtain ⟨r, hr, hg⟩ := List.mem_map.mp hr'
    refine ⟨r, hr, ?_⟩
    subst hg
    split
    · refine ⟨getField_setField_ne (Ne.symm hf) r Value.null, fun g => ?_⟩
      by_cases hgf : g = f
      · subst hgf
        exact Or.inr (getField_setField_self r g Value.null)
      · exact Or.inl (getField_setField_ne hgf r Value.null)
    · exact derivesRec_refl r
  · rw [setNullTable, getTable_setTable_ne hm]
    exact derivesTable_refl _

/-- The final removal derives from its input store. -/
theorem derivesStore_removeRecord {st : Store} {m : String} {rid : Value} :
    DerivesStore (removeRecord st m rid) st := by
  intro m'
  by_cases hm : m' = m
  · subst hm
    rw [removeRecord, getTable_setTable_self]
    intro r' hr'
    exact ⟨r', (List.mem_filter.mp hr').1, derivesRec_refl r'⟩
  · rw [removeRecord, getTable_setTable_ne hm]
    exact derivesTable_refl _

/-- Records of a table read back from a removal belong to the original
table, and in the removal's own model they avoid the removed id. -/
theorem mem_getTable_removeRecord {st : Store} {m m' : String} {rid : Value} {r : Rec}
    (h : r ∈ getTable (removeRecord st m rid) m') :
    r ∈ getTable st m' ∧ (m' = m → idOf r ≠ some rid) := by
  by_cases hm : m' = m
  · subst hm
    rw [removeRecord, getTable_setTable_self] at h
    obtain ⟨hmem, hcond⟩ := List.mem_filter.mp h
    refine ⟨hmem, fun _ => ?_⟩
    simp only [Bool.not_eq_true', beq_eq_false_iff_ne, ne_eq] at hcond
    exact hcond
  · rw [removeRecord, getTable_setTable_ne hm] at h
    exact ⟨h, fun e => absurd e hm⟩

end Btst

namespace Btst

/-! ## Identity-set lemmas -/

/-- A stored record's identity is among the store's identities. -/
theorem mem_identities_of_getTable {st : Store} {m : String} {r : Rec} {v : Value}
    (hr : r ∈ getTable st m) (hv : idOf r = some v) : (m, v) ∈ identities st := by
  induction st with
  | nil => simp [getTable] at hr
  | cons p rest ih =>
    obtain ⟨k, tb⟩ := p
    rw [identities, List.flatMap_cons]
    by_cases hk : k = m
    · subst hk
      rw [getTable, if_pos rfl] at hr
      exact List.mem_append_left _ (List.mem_filterMap.mpr ⟨r, hr, by simp [hv]⟩)
    · rw [getTable, if_neg hk] at hr
      exact List.mem_append_right _ (ih hr)

/-- Identities of a filtered store are identities of the store. -/
theorem identities_filter_sub (st : Store) (pr : String × List Rec → Bool) :
    ∀ p ∈ identities (st.filter pr), p ∈ identities st := by
  induction st with
  | nil => simp [identities]
  | cons q rest ih =>
    intro p hp
    rw [identities, List.flatMap_cons]
    rw [List.filter_cons] at hp
    cases hq : pr q
    · rw [hq] at hp
      simp only [Bool.false_eq_true, if_false] at hp
      exact List.mem_append_right _ (ih p hp)
    · rw [hq] at hp
      simp only [if_true] at hp
      rw [identities, List.flatMap_cons] at hp
      rcases List.mem_append.mp hp with h | h
      · exact List.mem_append_left _ h
      · exact List.mem_append_right _ (ih p h)

/-- Identities after a `setTable` whose new table introduces no new
identity are identities of the store. -/
theorem identities_setTable_sub {st : Store} {m : String} {t : List Rec}
    (h : ∀ r ∈ t, ∀ v, idOf r = some v → (m, v) ∈ identities st) :
    ∀ p ∈ identities (setTable st m t), p ∈ identities st := by
  intro p hp
  rw [setTable, identities, List.flatMap_cons] at hp
  rcases List.mem_append.mp hp with hl | hr
  · obtain ⟨r, hrt, heq⟩ := List.mem_filterMap.mp hl
    cases hid : idOf r with
    | none => rw [hid] at heq; cases heq
    | some v =>
      rw [hid] at heq
      simp only [Option.map_some'] at heq
      cases heq
      exact h r hrt v hid
  · exact identities_filter_sub st _ p hr

/-- `setNull` changes no identity. -/
theorem identities_setNullTable_sub {st : Store} {m f : String} {rid : Value}
    (hf : f ≠ "id") :
    ∀ p ∈ identities (setNullTable st m f rid), p ∈ identities st := by
  rw [setNullTable]
  apply identities_setTable_sub
  intro r hr v hv
  obtain ⟨r0, hr0, hg⟩ := List.mem_map.mp hr
  have hid : idOf r = idOf r0 := by
    subst hg
    split
    · exact getField_setField_ne (Ne.symm hf) r0 Value.null
    · rfl
  exact mem_identities_of_getTable hr0 (hid ▸ hv)

/-- Removal only drops identities. -/
theorem identities_removeRecord_sub {st : Store} {m : String} {rid : Value} :
    ∀ p ∈ identities (removeRecord st m rid), p ∈ identities st := by
  rw [removeRecord]
  apply identities_setTable_sub
  intro r hr v hv
  exact mem_identities_of_getTable (List.mem_filter.mp hr).1 hv

/-! ## Record-existence lemmas -/

/-- Existence unfolded. -/
theorem recordExists_iff {st : Store} {m : String} {rid : Value} :
    recordExists st m rid = true ↔ ∃ r ∈ getTable st m, idOf r = some rid := by
  simp [recordExists, List.any_eq_true, beq_iff_eq]

/-- Absence is preserved along derivation. -/
theorem notExists_mono {st' st : Store} {m : String} {rid : Value}
    (hD : DerivesStore st' st) (h : recordExists st m rid = false) :
    recordExists st' m rid = false := by
  cases hc : recordExists st' m rid
  · rfl
  · exfalso
    obtain ⟨r', hr', hid'⟩ := recordExists_iff.mp hc
    obtain ⟨r, hr, hd⟩ := hD m r' hr'
    have : recordExists st m rid = true :=
      recordExists_iff.mpr ⟨r, hr, hd.1 ▸ hid'⟩
    rw [h] at this
    cases this

/-- The removal removes the record. -/
theorem recordExists_removeRecord_self (st : Store) (m : String) (rid : Value) :
    recordExists (removeRecord st m rid) m rid = false := by
  cases hc : recordExists (removeRecord st m rid) m rid
  · rfl
  · exfalso
    obtain ⟨r, hr, hid⟩ := recordExists_iff.mp hc
    exact (mem_getTable_removeRecord hr).2 rfl hid

/-- The removal touches no other identity. -/
theorem recordExists_removeRecord_other {st : Store} {m m2 : String} {rid i : Value}
    (h : ¬(m2 = m ∧ i = rid)) :
    recordExists (removeRecord st m rid) m2 i = recordExists st m2 i := by
  by_cases hm : m2 = m
  · subst hm
    have hir : i ≠ rid := fun e => h ⟨rfl, e⟩
    rw [recordExists, recordExists, removeRecord, getTable_setTable_self]
    cases hc : (getTable st m2).any (fun r => idOf r == some i)
    · cases hc' : ((getTable st m2).filter (fun r => !(idOf r == some rid))).any
          (fun r => idOf r == some i)
      · rfl
      · exfalso
        obtain ⟨r, hr, hb⟩ := List.any_eq_true.mp hc'
        have : (getTable st m2).any (fun r => idOf r == some i) = true :=
          List.any_eq_true.mpr ⟨r, (List.mem_filter.mp hr).1, hb⟩
        rw [hc] at this
        cases this
    · obtain ⟨r, hr, hb⟩ := List.any_eq_true.mp hc
      apply List.any_eq_true.mpr
      refine ⟨r, List.mem_filter.mpr ⟨hr, ?_⟩, hb⟩
      simp only [beq_iff_eq] at hb
      simp [beq_iff_eq, hb, hir]
  · rw [recordExists, recordExists, removeRecord, getTable_setTable_ne hm]

/-- `setNull` changes no existence. -/
theorem recordExists_setNullTable {st : Store} {m f m2 : String} {rid i : Value}
    (hf : f ≠ "id") :
    recordExists (setNullTable st m f rid) m2 i = recordExists st m2 i := by
  by_cases hm : m2 = m
  · subst hm
    rw [recordExists, recordExists, setNullTable, getTable_setTable_self]
    have key : ∀ t : List Rec,
        ((t.map (fun r => if getField r f == some rid then setField r f Value.null else r)).any
            (fun r => idOf r == some i)) =
          t.any (fun r => idOf r == some i) := by
      intro t
      induction t with
      | nil => rfl
      | cons a t ih =>
        simp only [List.map_cons, List.any_cons, ih]
        congr 1
        split
        · rw [show idOf (setField a f Value.null) = idOf a from
            getField_setField_ne (Ne.symm hf) a Value.null]
        · rfl
    exact key _
  · rw [recordExists, recordExists, setNullTable, getTable_setTable_ne hm]

/-! ## Well-formedness transfer -/

/-- A record read from a table sits in an actual store entry. -/
theorem getTable_mem_pair {st : Store} {m : String} {r : Rec}
    (hr : r ∈ getTable st m) : (m, getTable st m) ∈ st := by
  induction st with
  | nil => simp [getTable] at hr
  | cons p rest ih =>
    obtain ⟨k, tb⟩ := p
    by_cases hk : k = m
    · subst hk
      rw [getTable, if_pos rfl] at hr ⊢
      exact List.mem_cons_self _ _
    · rw [getTable, if_neg hk] at hr ⊢
      exact List.mem_cons_of_mem _ (ih hr)

/-- The boolean check implies store well-formedness. -/
theorem wfStore_of_b {st : Store} (h : WFStoreB st = true) : WFStore st := by
  intro m r hr
  have hp := List.all_eq_true.mp h (m, getTable st m) (getTable_mem_pair hr)
  have hrr := List.all_eq_true.mp hp r hr
  rw [Bool.and_eq_true] at hrr
  obtain ⟨v, hv⟩ := Option.isSome_iff_exists.mp hrr.1
  refine ⟨v, hv, ?_⟩
  intro he
  subst he
  rw [hv] at hrr
  simp at hrr

/-- Well-formedness is preserved along derivation. -/
theorem wfStore_mono {st' st : Store} (hD : DerivesStore st' st) (h : WFStore st) :
    WFStore st' := by
  intro m r' hr'
  obtain ⟨r, hr, hd⟩ := hD m r' hr'
  obtain ⟨v, hv, hn⟩ := h m r hr
  exact ⟨v, hd.1 ▸ hv, hn⟩

/-- The identity deleted is non-null when it exists in a well-formed
store. -/
theorem rid_ne_null_of_exists {st : Store} {m : String} {rid : Value}
    (hwf : WFStore st) (hex : recordExists st m rid = true) : rid ≠ Value.null := by
  obtain ⟨r, hr, hid⟩ := recordExists_iff.mp hex
  obtain ⟨v, hv, hn⟩ := hwf m r hr
  rw [hid] at hv
  cases hv
  exact hn

/-! ## CleanExcept lemmas -/

/-- Cleanliness transfers backwards along derivation (the foreign key of
a surviving record was not nulled, because the identity is non-null). -/
theorem cleanExcept_mono {s : Schema} {st' st : Store} {v : List (String × Value)}
    {m2 : String} {i : Value} (hD : DerivesStore st' st) (hi : i ≠ Value.null)
    (h : CleanExcept s st v m2 i) : CleanExcept s st' v m2 i := by
  intro e he hpol r' hr' hfk
  obtain ⟨r, hr, hd⟩ := hD e.child r' hr'
  rcases hd.2 e.field with heq | hnull
  · obtain ⟨j, hj, hmem⟩ := h e he hpol r hr (heq ▸ hfk)
    exact ⟨j, hd.1 ▸ hj, hmem⟩
  · rw [hfk] at hnull
    cases hnull
    exact absurd rfl hi

/-- Stripping the just-deleted identity from the exception list: the
final removal removes every record whose identity it carries. -/
theorem cleanExcept_removeRecord_strip {s : Schema} {st1 : Store} {m : String}
    {rid : Value} {visited : List (String × Value)} {m2 : String} {i : Value}
    (h : CleanExcept s st1 ((m, rid) :: visited) m2 i) :
    CleanExcept s (removeRecord st1 m rid) visited m2 i := by
  intro e he hpol r hr hfk
  obtain ⟨hr1, hnot⟩ := mem_getTable_removeRecord hr
  obtain ⟨j, hj, hmem⟩ := h e he hpol r hr1 hfk
  rcases List.mem_cons.mp hmem with heq | hmem
  · exfalso
    have hchild : e.child = m := congrArg Prod.fst heq
    have hjr : j = rid := congrArg Prod.snd heq
    exact hnot (hchild ▸ rfl) (by rw [hj, hjr])
  · exact ⟨j, hj, hmem⟩

/-- Referencing fields are never called `id` in a well-formed schema. -/
theorem edge_field_ne_id {s : Schema} {m : String} {e : Edge}
    (hwf : WFSchema s) (he : e ∈ referencingEdges s m) : e.field ≠ "id" := by
  rw [referencingEdges] at he
  obtain ⟨p, hp, hq⟩ := List.mem_flatMap.mp he
  obtain ⟨q, hqf, heq⟩ := List.mem_filterMap.mp hq
  cases href : q.2.references with
  | none => rw [href] at heq; cases heq
  | some ref =>
    rw [href] at heq
    dsimp only at heq
    by_cases hrm : ref.model = m
    · rw [if_pos hrm] at heq
      cases heq
      exact hwf p hp q hqf
    · rw [if_neg hrm] at heq
      cases heq

end Btst

namespace Btst

/-! ## The cascade induction -/

/-- The invariant transfers from `delRec` to `delChildren` at the same
fuel. -/
theorem childInv_of (s : Schema) (n : Nat) (hrec : RecInvP s n) : ChildInvP s n := by
  intro visited child kids
  induction kids with
  | nil =>
    intro store store' hwf hst h
    rw [delChildrenF] at h
    cases h
    exact ⟨⟨derivesStore_refl _, fun p hp => hp⟩, by simp,
      fun m2 i _ he hne => by simp [he] at hne⟩
  | cons c cs ih =>
    intro store store' hwf hst h
    rw [delChildrenF] at h
    cases hR : delRec s n visited child c store with
    | error err =>
      simp only [hR] at h
      cases h
    | ok st1 =>
      simp only [hR] at h
      have hrecC := hrec visited child c store st1 hwf hst hR
      have hst1 : WFStore st1 := wfStore_mono hrecC.1.1 hst
      have hrest := ih st1 store' hwf hst1 h
      refine ⟨⟨derivesStore_trans hrest.1.1 hrecC.1.1,
        fun p hp => hrecC.1.2 p (hrest.1.2 p hp)⟩, ?_, ?_⟩
      · intro c' hc'
        rcases List.mem_cons.mp hc' with rfl | hc'
        · by_cases hv : (child, c') ∈ visited
          · exact Or.inl hv
          · by_cases hex : recordExists store child c' = true
            · exact Or.inr (notExists_mono hrest.1.1 (hrecC.2.1 hv hex))
            · have hex' : recordExists store child c' = false :=
                Bool.not_eq_true _ ▸ (by exact hex)
              exact Or.inr (notExists_mono hrest.1.1 (notExists_mono hrecC.1.1 hex'))
        · exact hrest.2.1 c' hc'
      · intro m2 i hi hexS hnotS
        by_cases h1 : recordExists st1 m2 i = true
        · exact hrest.2.2 m2 i hi h1 hnotS
        · have h1' : recordExists st1 m2 i = false :=
            Bool.not_eq_true _ ▸ (by exact h1)
          rcases hrecC.2.2 m2 i hi hexS h1' with hv | hcl
          · exact Or.inl hv
          · exact Or.inr (cleanExcept_mono hrest.1.1 hi hcl)

end Btst

namespace Btst

/-- The invariant transfers from `delChildren` to `delEdges` at the
same fuel. -/
theorem edgeInv_of (s : Schema) (n : Nat) (hchild : ChildInvP s n) : EdgeInvP s n := by
  intro visited rid edges
  induction edges with
  | nil =>
    intro store store' hwf hst hrid hflds h
    rw [delEdgesF] at h
    cases h
    exact ⟨⟨derivesStore_refl _, fun p hp => hp⟩, by simp,
      fun m2 i _ he hne => by simp [he] at hne⟩
  | cons e es ih =>
    intro store store' hwf hst hrid hflds h
    have hfe : e.field ≠ "id" := hflds e (by simp)
    have hflds' : ∀ e' ∈ es, e'.field ≠ "id" := fun e' he' => hflds e' (by simp [he'])
    rw [delEdgesF] at h
    cases hpol : e.policy with
    | cascade =>
      simp only [hpol] at h
      cases hC : delChildrenF (delRec s n visited) e.child
          (((getTable store e.child).filter
            (fun r => getField r e.field == some rid)).filterMap idOf) store with
      | error err =>
        simp only [hC] at h
        cases h
      | ok st1 =>
        simp only [hC] at h
        have hch := hchild visited e.child _ store st1 hwf hst hC
        have hst1 := wfStore_mono hch.1.1 hst
        have hrest := ih st1 store' hwf hst1 hrid hflds' h
        refine ⟨⟨derivesStore_trans hrest.1.1 hch.1.1,
          fun p hp => hch.1.2 p (hrest.1.2 p hp)⟩, ?_, ?_⟩
        · intro e' he' hpol' r hr hfk
          rcases List.mem_cons.mp he' with rfl | he'
          · obtain ⟨r1, hr1, hd2⟩ := hrest.1.1 e'.child r hr
            have hfk1 : getField r1 e'.field = some rid := by
              rcases hd2.2 e'.field with heq | hnull
              · rw [← heq]; exact hfk
              · rw [hfk] at hnull
                cases hnull
                exact absurd rfl hrid
            obtain ⟨r0, hr0, hd1⟩ := hch.1.1 e'.child r1 hr1
            have hfk0 : getField r0 e'.field = some rid := by
              rcases hd1.2 e'.field with heq | hnull
              · rw [← heq]; exact hfk1
              · rw [hfk1] at hnull
                cases hnull
                exact absurd rfl hrid
            obtain ⟨j, hj, hjn⟩ := hst e'.child r0 hr0
            have hjkids : j ∈ ((getTable store e'.child).filter
                (fun r => getField r e'.field == some rid)).filterMap idOf :=
              List.mem_filterMap.mpr
                ⟨r0, List.mem_filter.mpr ⟨hr0, by simp [beq_iff_eq, hfk0]⟩, hj⟩
            rcases hch.2.1 j hjkids with hv | hnot
            · exact ⟨j, by rw [hd2.1, hd1.1]; exact hj, hv⟩
            · exfalso
              have hex1 : recordExists st1 e'.child j = true :=
                recordExists_iff.mpr ⟨r1, hr1, by rw [hd1.1]; exact hj⟩
              rw [hnot] at hex1
              cases hex1
          · exact hrest.2.1 e' he' hpol' r hr hfk
        · intro m2 i hi hexS hnotS
          by_cases h1 : recordExists st1 m2 i = true
          · exact hrest.2.2 m2 i hi h1 hnotS
          · have h1' : recordExists st1 m2 i = false :=
              Bool.not_eq_true _ ▸ (by exact h1)
            rcases hch.2.2 m2 i hi hexS h1' with hv | hcl
            · exact Or.inl hv
            · exact Or.inr (cleanExcept_mono hrest.1.1 hi hcl)
    | setNull =>
      simp only [hpol] at h
      have hD0 : DerivesStore (setNullTable store e.child e.field rid) store :=
        derivesStore_setNullTable hfe
      have hst0 := wfStore_mono hD0 hst
      have hrest := ih _ store' hwf hst0 hrid hflds' h
      refine ⟨⟨derivesStore_trans hrest.1.1 hD0,
        fun p hp => identities_setNullTable_sub hfe p (hrest.1.2 p hp)⟩, ?_, ?_⟩
      · intro e' he' hpol' r hr hfk
        rcases List.mem_cons.mp he' with rfl | he'
        · rw [hpol] at hpol'
          cases hpol'
        · exact hrest.2.1 e' he' hpol' r hr hfk
      · intro m2 i hi hexS hnotS
        have hexS0 : recordExists (setNullTable store e.child e.field rid) m2 i = true := by
          rw [recordExists_setNullTable hfe]
          exact hexS
        exact hrest.2.2 m2 i hi hexS0 hnotS
    | restrict =>
      simp only [hpol] at h
      have hrest := ih store store' hwf hst hrid hflds' h
      refine ⟨hrest.1, ?_, hrest.2.2⟩
      intro e' he' hpol' r hr hfk
      rcases List.mem_cons.mp he' with rfl | he'
      · rw [hpol] at hpol'
        cases hpol'
      · exact hrest.2.1 e' he' hpol' r hr hfk
    | noAction =>
      simp only [hpol] at h
      have hrest := ih store store' hwf hst hrid hflds' h
      refine ⟨hrest.1, ?_, hrest.2.2⟩
      intro e' he' hpol' r hr hfk
      rcases List.mem_cons.mp he' with rfl | he'
      · rw [hpol] at hpol'
        cases hpol'
      · exact hrest.2.1 e' he' hpol' r hr hfk

end Btst

namespace Btst

/-- Base case: zero fuel never succeeds. -/
theorem recInv_zero (s : Schema) : RecInvP s 0 := by
  intro visited m rid store store' _ _ h
  simp only [delRec] at h
  cases h

/-- Inductive step for `delRec`. -/
theorem recInv_succ (s : Schema) (n : Nat) (hedge : EdgeInvP s n) : RecInvP s (n + 1) := by
  intro visited m rid store store' hwf hst h
  simp only [delRec] at h
  by_cases hv : (m, rid) ∈ visited
  · rw [if_pos hv] at h
    cases h
    exact ⟨⟨derivesStore_refl _, fun p hp => hp⟩, fun hnv _ => absurd hv hnv,
      fun m2 i _ he hne => by simp [he] at hne⟩
  · rw [if_neg hv] at h
    by_cases hex : recordExists store m rid = false
    · rw [if_pos hex] at h
      cases h
      refine ⟨⟨derivesStore_refl _, fun p hp => hp⟩, ?_,
        fun m2 i _ he hne => by simp [he] at hne⟩
      intro _ hext
      rw [hext] at hex
      cases hex
    · rw [if_neg hex] at h
      by_cases hrv : restrictViolated s store m rid = true
      · rw [if_pos hrv] at h
        cases h
      · rw [if_neg hrv] at h
        have hexT : recordExists store m rid = true := by
          cases hc : recordExists store m rid
          · exact absurd hc hex
          · rfl
        have hrid : rid ≠ Value.null := rid_ne_null_of_exists hst hexT
        cases hE : delEdgesF (delRec s n ((m, rid) :: visited)) rid
            (referencingEdges s m) store with
        | error e =>
          simp only [hE] at h
          cases h
        | ok st1 =>
          simp only [hE] at h
          cases h
          have hflds : ∀ e ∈ referencingEdges s m, e.field ≠ "id" :=
            fun e he => edge_field_ne_id hwf he
          have hedges := hedge ((m, rid) :: visited) rid (referencingEdges s m)
            store st1 hwf hst hrid hflds hE
          have hcleanF : CleanExcept s (removeRecord st1 m rid) visited m rid :=
            cleanExcept_removeRecord_strip (fun e he hpol r hr hfk =>
              hedges.2.1 e he hpol r hr hfk)
          refine ⟨⟨derivesStore_trans derivesStore_removeRecord hedges.1.1,
            fun p hp => hedges.1.2 p (identities_removeRecord_sub p hp)⟩, ?_, ?_⟩
          · intro _ _
            exact recordExists_removeRecord_self st1 m rid
          · intro m2 i hi hexS hnotS
            by_cases h1 : recordExists st1 m2 i = true
            · by_cases hmi : m2 = m ∧ i = rid
              · obtain ⟨rfl, rfl⟩ := hmi
                exact Or.inr hcleanF
              · exfalso
                rw [recordExists_removeRecord_other hmi, h1] at hnotS
                cases hnotS
            · have h1' : recordExists st1 m2 i = false :=
                Bool.not_eq_true _ ▸ (by exact h1)
              rcases hedges.2.2 m2 i hi hexS h1' with hvv | hcl
              · rcases List.mem_cons.mp hvv with heq | hvv
                · have hm2 : m2 = m := congrArg Prod.fst heq
                  have hir : i = rid := congrArg Prod.snd heq
                  subst hm2
                  subst hir
                  exact Or.inr hcleanF
                · exact Or.inl hvv
              · exact Or.inr (cleanExcept_removeRecord_strip hcl)

/-- The invariant holds at every fuel. -/
theorem recInv_all (s : Schema) : ∀ n, RecInvP s n := by
  intro n
  induction n with
  | zero => exact recInv_zero s
  | succ n ih => exact recInv_succ s n (edgeInv_of s n (childInv_of s n ih))

end Btst

namespace Btst

/-! ## Fuel adequacy -/

/-- The unvisited measure is monotone in the identity set. -/
theorem numUnvisited_le_of_sub {st1 st2 : Store} {v : List (String × Value)}
    (h : ∀ p ∈ identities st1, p ∈ identities st2) :
    numUnvisited st1 v ≤ numUnvisited st2 v := by
  rw [numUnvisited, numUnvisited]
  set q : String × Value → Bool := fun p => !(v.contains p) with hq
  have h1 : ((identities st1).dedup.filter q).Nodup :=
    List.Nodup.filter q (List.nodup_dedup _)
  have hsub : ∀ x ∈ (identities st1).dedup.filter q, x ∈ (identities st2).dedup.filter q := by
    intro x hx
    obtain ⟨hxm, hxq⟩ := List.mem_filter.mp hx
    exact List.mem_filter.mpr ⟨List.mem_dedup.mpr (h x (List.mem_dedup.mp hxm)), hxq⟩
  calc ((identities st1).dedup.filter q).length
      = ((identities st1).dedup.filter q).toFinset.card :=
        (List.toFinset_card_of_nodup h1).symm
    _ ≤ ((identities st2).dedup.filter q).toFinset.card := by
        apply Finset.card_le_card
        intro x hx
        exact List.mem_toFinset.mpr (hsub x (List.mem_toFinset.mp hx))
    _ ≤ ((identities st2).dedup.filter q).length := List.toFinset_card_le _

/-- Visiting a present, unvisited identity decrements the measure. -/
theorem numUnvisited_cons {st : Store} {visited : List (String × Value)}
    {p : String × Value} (hmem : p ∈ identities st) (hnv : p ∉ visited) :
    numUnvisited st (p :: visited) + 1 = numUnvisited st visited := by
  rw [numUnvisited, numUnvisited]
  have key : ∀ (l : List (String × Value)), l.Nodup → p ∈ l →
      (l.filter (fun x => !((p :: visited).contains x))).length + 1 =
        (l.filter (fun x => !(visited.contains x))).length := by
    intro l
    induction l with
    | nil => intro _ hm; cases hm
    | cons a l ih =>
      intro hnd hm
      have hnd' : l.Nodup := hnd.of_cons
      have hal : a ∉ l := (List.nodup_cons.mp hnd).1
      by_cases hpa : p = a
      · subst hpa
        have hpl : p ∉ l := hal
        rw [List.filter_cons, List.filter_cons]
        have hc1 : (!((p :: visited).contains p)) = false := by
          simp [List.contains_cons]
        have hc2 : (!(visited.contains p)) = true := by
          simp [hnv]
        rw [hc1, hc2]
        simp only [Bool.false_eq_true, if_false, if_true, List.length_cons]
        have : l.filter (fun x => !((p :: visited).contains x)) =
            l.filter (fun x => !(visited.contains x)) := by
          apply List.filter_congr
          intro x hx
          have hxp : x ≠ p := fun e => hpl (e ▸ hx)
          simp [List.contains_cons, hxp]
        rw [this]
      · have hpm : p ∈ l := by
          rcases List.mem_cons.mp hm with he | hl
          · exact absurd he hpa
          · exact hl
        rw [List.filter_cons, List.filter_cons]
        have hca : (!((p :: visited).contains a)) = (!(visited.contains a)) := by
          have : ¬(a = p) := fun e => hpa e.symm
          simp [List.contains_cons, this]
        rw [hca]
        cases hc : (!(visited.contains a))
        · simp only [Bool.false_eq_true, if_false]
          exact ih hnd' hpm
        · simp only [if_true, List.length_cons]
          have := ih hnd' hpm
          omega
  exact key _ (List.nodup_dedup _) (List.mem_dedup.mpr hmem)

/-- The identity list is no longer than the record count. -/
theorem identities_length_le (st : Store) : (identities st).length ≤ totalRecords st := by
  induction st with
  | nil => simp [identities, totalRecords]
  | cons p rest ih =>
    rw [identities, List.flatMap_cons, List.length_append]
    have h1 : (p.2.filterMap (fun r => (idOf r).map (fun v => (p.1, v)))).length ≤
        p.2.length := List.length_filterMap_le _ _
    have h2 : totalRecords (p :: rest) = p.2.length + totalRecords rest := by
      simp [totalRecords]
    rw [identities] at ih
    omega

/-- The initial fuel bounds the initial measure. -/
theorem numUnvisited_nil_lt_fuelFor (st : Store) : numUnvisited st [] < fuelFor st := by
  have h1 : numUnvisited st [] ≤ (identities st).dedup.length := by
    rw [numUnvisited]
    exact List.length_filter_le _ _
  have h2 : (identities st).dedup.length ≤ (identities st).length :=
    (List.dedup_sublist _).length_le
  have h3 := identities_length_le st
  rw [fuelFor]
  omega

end Btst

namespace Btst

/-- Fuel adequacy transfers from `delRec` to `delChildren`. -/
theorem childFuel_of (s : Schema) (n : Nat) (hrecF : RecFuelP s n) (hrec : RecInvP s n) :
    ChildFuelP s n := by
  intro visited child kids
  induction kids with
  | nil =>
    intro store _ _ _
    rw [delChildrenF]
    simp
  | cons c cs ih =>
    intro store hwf hst hn
    rw [delChildrenF]
    cases hR : delRec s n visited child c store with
    | error err =>
      simp only [hR]
      intro hcon
      cases hcon
      exact absurd hR (hrecF visited child c store hwf hst hn)
    | ok st1 =>
      simp only [hR]
      have hrc := hrec visited child c store st1 hwf hst hR
      have hle := @numUnvisited_le_of_sub st1 store visited hrc.1.2
      exact ih st1 hwf (wfStore_mono hrc.1.1 hst) (by omega)

/-- Fuel adequacy transfers from `delChildren` to `delEdges`. -/
theorem edgeFuel_of (s : Schema) (n : Nat) (hchildF : ChildFuelP s n)
    (hchild : ChildInvP s n) : EdgeFuelP s n := by
  intro visited rid edges
  induction edges with
  | nil =>
    intro store _ _ _ _
    rw [delEdgesF]
    simp
  | cons e es ih =>
    intro store hwf hst hflds hn
    have hfe : e.field ≠ "id" := hflds e (by simp)
    have hflds' : ∀ e' ∈ es, e'.field ≠ "id" := fun e' he' => hflds e' (by simp [he'])
    rw [delEdgesF]
    cases hpol : e.policy with
    | cascade =>
      simp only [hpol]
      cases hC : delChildrenF (delRec s n visited) e.child
          (((getTable store e.child).filter
            (fun r => getField r e.field == some rid)).filterMap idOf) store with
      | error err =>
        simp only [hC]
        intro hcon
        cases hcon
        exact absurd hC (hchildF visited e.child _ store hwf hst hn)
      | ok st1 =>
        simp only [hC]
        have hc := hchild visited e.child _ store st1 hwf hst hC
        have hle := @numUnvisited_le_of_sub st1 store visited hc.1.2
        exact ih st1 hwf (wfStore_mono hc.1.1 hst) hflds' (by omega)
    | setNull =>
      simp only [hpol]
      have hle := @numUnvisited_le_of_sub (setNullTable store e.child e.field rid) store
        visited (@identities_setNullTable_sub store e.child e.field rid hfe)
      exact ih _ hwf (wfStore_mono (derivesStore_setNullTable hfe) hst) hflds' (by omega)
    | restrict =>
      simp only [hpol]
      exact ih store hwf hst hflds' hn
    | noAction =>
      simp only [hpol]
      exact ih store hwf hst hflds' hn

/-- Zero fuel satisfies the bound vacuously. -/
theorem recFuel_zero (s : Schema) : RecFuelP s 0 := by
  intro visited m rid store _ _ hn
  omega

/-- Fuel step for `delRec`. -/
theorem recFuel_succ (s : Schema) (n : Nat) (hedgeF : EdgeFuelP s n) : RecFuelP s (n + 1) := by
  intro visited m rid store hwf hst hn
  simp only [delRec]
  by_cases hv : (m, rid) ∈ visited
  · rw [if_pos hv]
    simp
  · rw [if_neg hv]
    by_cases hex : recordExists store m rid = false
    · rw [if_pos hex]
      simp
    · rw [if_neg hex]
      by_cases hrv : restrictViolated s store m rid = true
      · rw [if_pos hrv]
        simp
      · rw [if_neg hrv]
        have hexT : recordExists store m rid = true := by
          cases hc : recordExists store m rid
          · exact absurd hc hex
          · rfl
        obtain ⟨r, hr, hid⟩ := recordExists_iff.mp hexT
        have hmem : (m, rid) ∈ identities store := mem_identities_of_getTable hr hid
        have hdec := numUnvisited_cons hmem hv
        cases hE : delEdgesF (delRec s n ((m, rid) :: visited)) rid
            (referencingEdges s m) store with
        | error e =>
          simp only [hE]
          intro hcon
          cases hcon
          exact absurd hE (hedgeF ((m, rid) :: visited) rid (referencingEdges s m) store
            hwf hst (fun e' he' => edge_field_ne_id hwf he') (by omega))
        | ok st1 =>
          simp only [hE]
          simp

/-- Fuel adequacy at every fuel. -/
theorem recFuel_all (s : Schema) : ∀ n, RecFuelP s n := by
  intro n
  induction n with
  | zero => exact recFuel_zero s
  | succ n ih =>
    exact recFuel_succ s n (edgeFuel_of s n (childFuel_of s n ih (recInv_all s n))
      (childInv_of s n (recInv_all s n)))

/-- `deleteById` never exhausts its fuel. -/
theorem deleteById_no_internal {s : Schema} {store : Store} {m : String} {rid : Value}
    (hwf : WFSchema s) (hst : WFStore store) :
    (deleteById s store m rid).1 ≠ some DbError.Internal := by
  rw [deleteById]
  cases hD : delRec s (fuelFor store) [] m rid store with
  | ok st => simp
  | error e =>
    simp only []
    intro hcon
    have he : e = DbError.Internal := by
      cases hcon
      rfl
    subst he
    have hf := numUnvisited_nil_lt_fuelFor store
    exact absurd hD (recFuel_all s (fuelFor store) [] m rid store hwf hst (by omega))

end Btst

namespace Btst

/-! ## Claim C1: cascade delete removes all referencing children -/

/-- C1: deleting an existing record terminates (the tracked visited set
bounds the recursion, so the fuel is never exhausted even on cyclic
schemas), and on success no record of any model whose field cascades on
the deleted model still holds the deleted id in that field — every such
child was recursively deleted with its own referential actions. -/
theorem cascade_delete_removes_children :
    ∀ (s : Schema) (store : Store) (m : String) (rid : Value),
      WFSchema s → WFStore store → recordExists store m rid = true →
      (deleteById s store m rid).1 ≠ some DbError.Internal ∧
      (∀ store', deleteById s store m rid = (none, store') →
        ∀ e ∈ referencingEdges s m, e.policy = .cascade →
          ∀ r ∈ getTable store' e.child, getField r e.field ≠ some rid) := by
  intro s store m rid hwf hst hex
  refine ⟨deleteById_no_internal hwf hst, ?_⟩
  intro store' h e he hpol r hr hfk
  have hD : delRec s (fuelFor store) [] m rid store = .ok store' := by
    rw [deleteById] at h
    cases hDD : delRec s (fuelFor store) [] m rid store with
    | ok st =>
      rw [hDD] at h
      cases h
      rfl
    | error err =>
      rw [hDD] at h
      cases h
  have hinv := recInv_all s (fuelFor store) [] m rid store store' hwf hst hD
  have hrid : rid ≠ Value.null := rid_ne_null_of_exists hst hex
  have hrem : recordExists store' m rid = false := hinv.2.1 (by simp) hex
  rcases hinv.2.2 m rid hrid hex hrem with hmem | hcln
  · simp at hmem
  · obtain ⟨j, _, hj⟩ := hcln e he hpol r hr hfk
    simp at hj

/-- Witness for C1: deleting author `a1` from the populated sample store
succeeds, cascades away the profile and both books, and afterwards no
book references `a1`. -/
theorem cascade_delete_removes_children_witness :
    (deleteById testSchema sampleStore "author" (.str "a1")).1 ≠ some DbError.Internal ∧
    ∀ r ∈ getTable [("author", []), ("book", []), ("profile", [])] "book",
      getField r "authorId" ≠ some (.str "a1") := by
  have h := cascade_delete_removes_children testSchema sampleStore "author" (.str "a1")
    (by unfold WFSchema; decide) (wfStore_of_b (by decide)) (by decide)
  have heq : deleteById testSchema sampleStore "author" (.str "a1") =
      (none, [("author", []), ("book", []), ("profile", [])]) := by
    decide
  exact ⟨h.1, h.2 [("author", []), ("book", []), ("profile", [])] heq
    ⟨"book", "authorId", .cascade⟩ (by decide) rfl⟩

end Btst
